import Mathlib

/-!
Shallow embedding of the glacier-monitoring pipeline
(GlacierSAR-Kyrgyzstan) and proofs about its specified behaviour.

The embedding models:
* `np.percentile` with linear interpolation (used by the multi-level
  classifier of `pipline/sar_db_distribution_analysis.py` and by the
  simple detector `find_glacier_simple`);
* the corrected 6-level surface classifier of
  `sar_db_distribution_analysis.py` (`detect_shadows_and_rock` plus the
  threshold bands of `analyze_db_distribution_multilevel`), with scipy
  `binary_opening` (3×3 structuring element, zero border value);
* the window resolution of `analyze_glacier_CORRECT_COORDS.py`
  (`lonlat_to_pixel_precise` and the module-scope bbox block);
* `SARGlacierPipeline.compare_images`, `_lee_filter`,
  `estimate_melt_rate` of `sar_pipeline.py` and the `analyze_trends`
  relative-change field of `time_series_processor.py`;
* `find_glacier_simple` of `analyze_glacier_CORRECT_COORDS.py`.

Machine floats are modelled by exact rationals; a Python float that can
be NaN is modelled by `Option ℚ` with `none` for NaN.  Quantities whose
Python computation is genuinely transcendental (`10**(x/10)`,
`np.log10`) are modelled over `ℝ`.
-/

namespace GlacierSAR

/-- np.percentile with the default linear interpolation: sort ascending;
the value at fractional order-statistic position `q * (n-1) / 100`. -/
def percentile (xs : List ℚ) (q : ℚ) : ℚ :=
  let s := List.insertionSort (· ≤ ·) xs
  let n := s.length
  let pos : ℚ := q * ((n : ℚ) - 1) / 100
  let i : ℕ := (⌊pos⌋).toNat
  if i + 1 < n then s.getD i 0 + (pos - (i : ℚ)) * (s.getD (i + 1) 0 - s.getD i 0)
  else s.getD (n - 1) 0

/-! ### The 6-level classifier of `pipline/sar_db_distribution_analysis.py` -/

/-- A grayscale scene as loaded by `analyze_db_distribution_multilevel`:
an `H × W` array of 8-bit pixel values plus the configured dB range
(`config['processing']['db_range']`).  `pix` is consulted only at
`0 ≤ r < H`, `0 ≤ c < W`. -/
structure Scene where
  H : ℕ
  W : ℕ
  pix : ℤ → ℤ → ℕ
  dbMin : ℚ
  dbMax : ℚ

/-- `pixel_to_db`: convert pixel values (0-255) back to dB values. -/
def pixel_to_db (sc : Scene) (v : ℕ) : ℚ :=
  (v : ℚ) / 255 * (sc.dbMax - sc.dbMin) + sc.dbMin

/-- Whether `(r, c)` lies inside the pixel array. -/
def Scene.inB (sc : Scene) (r c : ℤ) : Bool :=
  decide (0 ≤ r) && decide (r < (sc.H : ℤ)) && decide (0 ≤ c) && decide (c < (sc.W : ℤ))

/-- The dB value of a pixel (`db_data`). -/
def dbAt (sc : Scene) (r c : ℤ) : ℚ := pixel_to_db sc (sc.pix r c)

/-- A valid pixel: inside the array with `pixel_data > 0`. -/
def validPix (sc : Scene) (r c : ℤ) : Bool :=
  sc.inB r c && decide (0 < sc.pix r c)

/-- `db_data[pixel_data > 0]`, flattened row-major: dB values of valid pixels. -/
def validDb (sc : Scene) : List ℚ :=
  ((List.range sc.H).map (fun r =>
    ((List.range sc.W).filter (fun c => decide (0 < sc.pix (r : ℤ) (c : ℤ)))).map
      (fun c => dbAt sc (r : ℤ) (c : ℤ)))).flatten

/-- `total_valid = len(valid_pixels)`. -/
def total_valid (sc : Scene) : ℕ := (validDb sc).length

/-- `very_dark_threshold = np.percentile(db_data[pixel_data > 0], 1)`. -/
def very_dark_threshold (sc : Scene) : ℚ := percentile (validDb sc) 1

/-- `shadow_threshold = np.percentile(db_data[pixel_data > 0], 5)`. -/
def shadow_threshold (sc : Scene) : ℚ := percentile (validDb sc) 5

/-- `p10 = np.percentile(valid_db, 15)` (deep glacier ice upper bound). -/
def p10 (sc : Scene) : ℚ := percentile (validDb sc) 15

/-- `p25 = np.percentile(valid_db, 30)`. -/
def p25 (sc : Scene) : ℚ := percentile (validDb sc) 30

/-- `p45 = np.percentile(valid_db, 50)`. -/
def p45 (sc : Scene) : ℚ := percentile (validDb sc) 50

/-- `p65 = np.percentile(valid_db, 70)`. -/
def p65 (sc : Scene) : ℚ := percentile (validDb sc) 70

/-- `p85 = np.percentile(valid_db, 85)` (computed but unused by the masks). -/
def p85 (sc : Scene) : ℚ := percentile (validDb sc) 85

/-- Offsets of the 3×3 structuring element `np.ones((3,3))`. -/
def nbhd3 : List (ℤ × ℤ) :=
  [(-1, -1), (-1, 0), (-1, 1), (0, -1), (0, 0), (0, 1), (1, -1), (1, 0), (1, 1)]

/-- scipy `binary_erosion` with a 3×3 structuring element and border value 0
(out-of-array positions count as background). -/
def binary_erosion3 (m : ℤ → ℤ → Bool) (r c : ℤ) : Bool :=
  nbhd3.all (fun d => m (r + d.1) (c + d.2))

/-- scipy `binary_dilation` with the (symmetric) 3×3 structuring element. -/
def binary_dilation3 (m : ℤ → ℤ → Bool) (r c : ℤ) : Bool :=
  nbhd3.any (fun d => m (r + d.1) (c + d.2))

/-- scipy `binary_opening(·, structure=np.ones((3,3)))`: erosion then dilation. -/
def binary_opening3 (m : ℤ → ℤ → Bool) (r c : ℤ) : Bool :=
  binary_dilation3 (fun a b => binary_erosion3 m a b) r c

/-- `shadows_rock = db_data <= very_dark_threshold` (whole array, as numpy does). -/
def shadows_rock_raw (sc : Scene) (r c : ℤ) : Bool :=
  sc.inB r c && decide (dbAt sc r c ≤ very_dark_threshold sc)

/-- `dark_terrain = (db_data > very_dark_threshold) & (db_data <= shadow_threshold)`. -/
def dark_terrain_raw (sc : Scene) (r c : ℤ) : Bool :=
  sc.inB r c && decide (very_dark_threshold sc < dbAt sc r c)
    && decide (dbAt sc r c ≤ shadow_threshold sc)

/-- `cleaned_shadows = binary_opening(shadows_rock, np.ones((3,3)))`. -/
def cleaned_shadows (sc : Scene) : ℤ → ℤ → Bool :=
  binary_opening3 (shadows_rock_raw sc)

/-- `cleaned_terrain = binary_opening(dark_terrain, np.ones((3,3)))`. -/
def cleaned_terrain (sc : Scene) : ℤ → ℤ → Bool :=
  binary_opening3 (dark_terrain_raw sc)

/-- `shadows_rock_mask = shadows_rock & (pixel_data > 0)`. -/
def shadows_rock_mask (sc : Scene) (r c : ℤ) : Bool :=
  cleaned_shadows sc r c && decide (0 < sc.pix r c)

/-- `dark_terrain_mask = dark_terrain & (pixel_data > 0)`. -/
def dark_terrain_mask (sc : Scene) (r c : ℤ) : Bool :=
  cleaned_terrain sc r c && decide (0 < sc.pix r c)

/-- `deep_glacier = (db_data > shadow_threshold) & (db_data <= p10)`. -/
def deep_glacier (sc : Scene) (r c : ℤ) : Bool :=
  sc.inB r c && decide (shadow_threshold sc < dbAt sc r c) && decide (dbAt sc r c ≤ p10 sc)

/-- `regular_glacier = (db_data > p10) & (db_data <= p25)`. -/
def regular_glacier (sc : Scene) (r c : ℤ) : Bool :=
  sc.inB r c && decide (p10 sc < dbAt sc r c) && decide (dbAt sc r c ≤ p25 sc)

/-- `clean_glacier = (db_data > p25) & (db_data <= p45)`. -/
def clean_glacier (sc : Scene) (r c : ℤ) : Bool :=
  sc.inB r c && decide (p25 sc < dbAt sc r c) && decide (dbAt sc r c ≤ p45 sc)

/-- `mixed_snow = (db_data > p45) & (db_data <= p65)`. -/
def mixed_snow (sc : Scene) (r c : ℤ) : Bool :=
  sc.inB r c && decide (p45 sc < dbAt sc r c) && decide (dbAt sc r c ≤ p65 sc)

/-- `debris_rock = db_data > p65`. -/
def debris_rock (sc : Scene) (r c : ℤ) : Bool :=
  sc.inB r c && decide (p65 sc < dbAt sc r c)

/-- Number of `true` pixels of a mask (`np.sum(mask)`). -/
def countMask (sc : Scene) (m : ℤ → ℤ → Bool) : ℕ :=
  ((List.range sc.H).map (fun r =>
    ((List.range sc.W).filter (fun c => m (r : ℤ) (c : ℤ))).length)).sum

/-- `deep_glacier_count = np.sum(deep_glacier)`. -/
def deep_glacier_count (sc : Scene) : ℕ := countMask sc (deep_glacier sc)

/-- `regular_glacier_count = np.sum(regular_glacier)`. -/
def regular_glacier_count (sc : Scene) : ℕ := countMask sc (regular_glacier sc)

/-- `clean_glacier_count = np.sum(clean_glacier)`. -/
def clean_glacier_count (sc : Scene) : ℕ := countMask sc (clean_glacier sc)

/-- `mixed_snow_count = np.sum(mixed_snow)`. -/
def mixed_snow_count (sc : Scene) : ℕ := countMask sc (mixed_snow sc)

/-- `shadows_rock_count = np.sum(shadows_rock_mask)`. -/
def shadows_rock_count (sc : Scene) : ℕ := countMask sc (shadows_rock_mask sc)

/-- `dark_terrain_count = np.sum(dark_terrain_mask)`. -/
def dark_terrain_count (sc : Scene) : ℕ := countMask sc (dark_terrain_mask sc)

/-- `debris_rock_count = np.sum(debris_rock)`. -/
def debris_rock_count (sc : Scene) : ℕ := countMask sc (debris_rock sc)

/-- `total_glacier_count = deep + regular + clean + mixed_snow` (line 264). -/
def total_glacier_count (sc : Scene) : ℕ :=
  deep_glacier_count sc + regular_glacier_count sc + clean_glacier_count sc
    + mixed_snow_count sc

/-- `total_glacier_percent = (total_glacier_count / total_valid) * 100`. -/
def total_glacier_percent (sc : Scene) : ℚ :=
  ((total_glacier_count sc : ℚ) / (total_valid sc : ℚ)) * 100

/-- The seven per-class masks in the order they are produced. -/
def classMasks (sc : Scene) : List (ℤ → ℤ → Bool) :=
  [shadows_rock_mask sc, dark_terrain_mask sc, deep_glacier sc, regular_glacier sc,
   clean_glacier sc, mixed_snow sc, debris_rock sc]

/-! ### Window resolution of `analyze_glacier_CORRECT_COORDS.py` -/

/-- `np.clip(x, lo, hi)` on integers. -/
def npClip (x lo hi : ℤ) : ℤ := min hi (max lo x)

/-- `lonlat_to_pixel_precise`: the GCP-fitted transform
(`rasterio.transform.from_gcps` + `rowcol`, an external collaborator,
modelled as an abstract function `T` from (lon, lat) to (row, col)),
followed by clamping into the raster extent.  Returns `(col, row)`. -/
def lonlat_to_pixel (T : ℚ × ℚ → ℤ × ℤ) (lon lat : ℚ) (w h : ℤ) : ℤ × ℤ :=
  let rc := T (lon, lat)
  (npClip rc.2 0 (w - 1), npClip rc.1 0 (h - 1))

/-- A lon/lat bounding box (`TARGET_LON × TARGET_LAT`). -/
structure BBoxQ where
  lonMin : ℚ
  lonMax : ℚ
  latMin : ℚ
  latMax : ℚ

/-- The resolved pixel window `(pixel_min, pixel_max, line_min, line_max)`. -/
structure Window where
  pixelMin : ℤ
  pixelMax : ℤ
  lineMin : ℤ
  lineMax : ℤ

/-- The module-scope window-resolution block (lines 138-159): maps the four
bbox corners through `lonlat_to_pixel_precise` and takes clamped min/max. -/
def resolveWindow (T : ℚ × ℚ → ℤ × ℤ) (bb : BBoxQ) (w h : ℤ) : Window :=
  let c1 := lonlat_to_pixel T bb.lonMin bb.latMin w h
  let c2 := lonlat_to_pixel T bb.lonMax bb.latMin w h
  let c3 := lonlat_to_pixel T bb.lonMax bb.latMax w h
  let c4 := lonlat_to_pixel T bb.lonMin bb.latMax w h
  { pixelMin := max 0 (min (min c1.1 c2.1) (min c3.1 c4.1))
    pixelMax := min w (max (max c1.1 c2.1) (max c3.1 c4.1))
    lineMin := max 0 (min (min c1.2 c2.2) (min c3.2 c4.2))
    lineMax := min h (max (max c1.2 c2.2) (max c3.2 c4.2)) }

/-! ### Python floats with NaN, and NaN-aware images -/

/-- A Python float value: `none` is NaN, `some q` a finite value. -/
abbrev EFloat := Option ℚ

/-- NaN-propagating addition. -/
def eadd : EFloat → EFloat → EFloat
  | some a, some b => some (a + b)
  | _, _ => none

/-- NaN-propagating subtraction. -/
def esub : EFloat → EFloat → EFloat
  | some a, some b => some (a - b)
  | _, _ => none

/-- NaN-propagating multiplication (NaN * x = NaN, as for floats). -/
def emul : EFloat → EFloat → EFloat
  | some a, some b => some (a * b)
  | _, _ => none

/-- NaN-propagating division.  Division by exact zero is also sent to NaN;
the pipeline's divisors are proved nonzero wherever a finite result matters. -/
def ediv : EFloat → EFloat → EFloat
  | some a, some b => if b = 0 then none else some (a / b)
  | _, _ => none

/-- Sum of a list of float values (NaN if any entry is NaN). -/
def esum (l : List EFloat) : EFloat := l.foldr eadd (some 0)

/-- `x <= y` on Python floats: false whenever either side is NaN. -/
def eleB : EFloat → EFloat → Bool
  | some a, some b => decide (a ≤ b)
  | _, _ => false

/-- A 2-D float array (possibly with NaN entries).  `val` is consulted
only at `r < H`, `c < W`. -/
structure EImage where
  H : ℕ
  W : ℕ
  val : ℕ → ℕ → EFloat

/-- scipy boundary mode 'reflect' `(d c b a | a b c d | d c b a)`:
closed form via the period-`2n` reflection. -/
def reflectIdx (n : ℕ) (i : ℤ) : ℕ :=
  let j := (i % (2 * (n : ℤ))).toNat
  if j < n then j else 2 * n - 1 - j

/-- Window offsets of a centered size-`w` filter: `-(w/2), ..., w - w/2 - 1`. -/
def windowOffsets (w : ℕ) : List ℤ :=
  (List.range w).map (fun (k : ℕ) => (k : ℤ) - ((w / 2 : ℕ) : ℤ))

/-- The values in the `w × w` window around `(r, c)`, with 'reflect' boundary
handling (row-major). -/
def windowVals (img : EImage) (w : ℕ) (r c : ℕ) : List EFloat :=
  ((windowOffsets w).map (fun dr =>
    (windowOffsets w).map (fun dc =>
      img.val (reflectIdx img.H ((r : ℤ) + dr)) (reflectIdx img.W ((c : ℤ) + dc))))).flatten

/-- scipy `uniform_filter(image, w)`: the mean over the `w × w` window.
(The separable implementation computes the same window mean; with NaN it is
NaN exactly when the window contains a NaN, in both formulations.) -/
def uniform_filter (img : EImage) (w : ℕ) : EImage :=
  ⟨img.H, img.W, fun r c => ediv (esum (windowVals img w r c)) (some ((w : ℚ) * (w : ℚ)))⟩

/-- `image**2`, elementwise. -/
def imgSq (img : EImage) : EImage :=
  ⟨img.H, img.W, fun r c => emul (img.val r c) (img.val r c)⟩

/-- All pixels of the image, row-major (`image` flattened). -/
def allVals (img : EImage) : List EFloat :=
  ((List.range img.H).map (fun r =>
    (List.range img.W).map (fun c => img.val r c))).flatten

/-- `np.mean(image)` over the whole array. -/
def np_mean (img : EImage) : EFloat :=
  ediv (esum (allVals img)) (some ((img.H : ℚ) * (img.W : ℚ)))

/-- `np.var(image)`: population variance over the whole array
(NaN as soon as any pixel is NaN). -/
def np_var (img : EImage) : EFloat :=
  ediv (esum ((allVals img).map
    (fun x => emul (esub x (np_mean img)) (esub x (np_mean img)))))
    (some ((img.H : ℚ) * (img.W : ℚ)))

/-- Tolerance `1e-10` used throughout `sar_pipeline.py`. -/
def epsQ : ℚ := 1 / 10 ^ 10

/-- `SARGlacierPipeline._lee_filter(image, window_size)`:
`mean = uniform_filter(image, w)`, `sqr_mean = uniform_filter(image**2, w)`,
`variance = sqr_mean - mean**2`, `overall_variance = np.var(image)`,
`weights = variance / (variance + overall_variance + 1e-10)`,
`filtered = mean + weights * (image - mean)`. -/
def lee_filter (img : EImage) (w : ℕ) : EImage :=
  let mean := uniform_filter img w
  let sqrMean := uniform_filter (imgSq img) w
  let ov := np_var img
  ⟨img.H, img.W, fun r c =>
    let m := mean.val r c
    let variance := esub (sqrMean.val r c) (emul m m)
    let weights := ediv variance (eadd (eadd variance ov) (some epsQ))
    eadd m (emul weights (esub (img.val r c) m))⟩

/-! ### `find_glacier_simple` of `analyze_glacier_CORRECT_COORDS.py` -/

/-- Ordering used to model numpy's sort on floats: NaN sorts after
every finite value. -/
def nanLe : EFloat → EFloat → Prop
  | some a, some b => a ≤ b
  | some _, none => True
  | none, some _ => False
  | none, none => True

instance : DecidableRel nanLe := fun x y =>
  match x, y with
  | some a, some b => inferInstanceAs (Decidable (a ≤ b))
  | some _, none => inferInstanceAs (Decidable True)
  | none, some _ => inferInstanceAs (Decidable False)
  | none, none => inferInstanceAs (Decidable True)

/-- Median of a window: middle element of the sorted window values.
(scipy `median_filter`; NaN handling follows numpy's NaN-last sort order.) -/
def medianOf (l : List EFloat) : EFloat :=
  (List.insertionSort nanLe l).getD (l.length / 2) none

/-- `data_filtered[r, c]`: `median_filter(data_db, size=3)` (default
'reflect' boundary) at one pixel. -/
def filteredAt (img : EImage) (r c : ℕ) : EFloat := medianOf (windowVals img 3 r c)

/-- `median_filter(data_db, size=3)` as a whole image. -/
def median_filter3 (img : EImage) : EImage :=
  ⟨img.H, img.W, fun r c => filteredAt img r c⟩

/-- `data_filtered[valid]`: the finite filtered values, row-major. -/
def finiteFilteredVals (img : EImage) : List ℚ :=
  ((List.range img.H).map (fun r =>
    (List.range img.W).filterMap (fun c => filteredAt img r c))).flatten

/-- `threshold = np.percentile(data_filtered[valid], percentile)`. -/
def glacierThreshold (img : EImage) (p : ℚ) : ℚ :=
  percentile (finiteFilteredVals img) p

/-- `glacier_mask = (data_filtered <= threshold) & valid`. -/
def glacier_mask (img : EImage) (p : ℚ) (r c : ℕ) : Bool :=
  eleB (filteredAt img r c) (some (glacierThreshold img p)) && (filteredAt img r c).isSome

/-- Count of `true` cells of an `H × W` boolean grid. -/
def countGridB (H W : ℕ) (m : ℕ → ℕ → Bool) : ℕ :=
  ((List.range H).map (fun r => ((List.range W).filter (fun c => m r c)).length)).sum

/-- `glacier_pixels = np.sum(glacier_mask)`. -/
def glacier_pixels (img : EImage) (p : ℚ) : ℕ :=
  countGridB img.H img.W (glacier_mask img p)

/-- `GLACIER_PERCENTILE = 33.3`. -/
def GLACIER_PERCENTILE : ℚ := 333 / 10

/-! ### `compare_images` of `sar_pipeline.py` -/

/-- A finite-valued 2-D array (a calibrated dB raster). -/
structure QImage where
  H : ℕ
  W : ℕ
  val : ℕ → ℕ → ℚ

/-- numpy shape broadcasting for one dimension. -/
def bcastDim (a b : ℕ) : Option ℕ :=
  if a = b then some a else if a = 1 then some b else if b = 1 then some a else none

/-- Broadcast indexing: a length-1 dimension repeats its only entry. -/
def bidx (n i : ℕ) : ℕ := if n = 1 then 0 else i

/-- A numpy elementwise binary operation with 2-D broadcasting;
`none` models the `ValueError` raised on non-broadcastable shapes. -/
def broadcastOp (f : ℚ → ℚ → ℚ) (A B : QImage) : Option QImage :=
  match bcastDim A.H B.H, bcastDim A.W B.W with
  | some h, some w =>
      some ⟨h, w, fun r c =>
        f (A.val (bidx A.H r) (bidx A.W c)) (B.val (bidx B.H r) (bidx B.W c))⟩
  | _, _ => none

/-- The parts of `compare_images`' result record that the claims are about. -/
structure CompareResult where
  diff : QImage
  percent_decreased : ℚ
  percent_increased : ℚ

/-- `compare_images(image1, image2)`: `difference = image2 - image1`;
`significant_decrease = difference < -threshold`,
`significant_increase = difference > threshold`;
`percent_* = 100 * np.sum(mask) / difference.size`.
No cropping is performed; mismatched (non-broadcastable) shapes raise. -/
def compare_images (image1 image2 : QImage) (thr : ℚ) : Option CompareResult :=
  match broadcastOp (fun a b => b - a) image1 image2 with
  | none => none
  | some diff =>
      some { diff := diff
             percent_decreased :=
               100 * (countGridB diff.H diff.W (fun r c => decide (diff.val r c < -thr)) : ℚ)
                 / ((diff.H : ℚ) * (diff.W : ℚ))
             percent_increased :=
               100 * (countGridB diff.H diff.W (fun r c => decide (thr < diff.val r c)) : ℚ)
                 / ((diff.H : ℚ) * (diff.W : ℚ)) }

/-- `1e-10` over the reals. -/
noncomputable def epsR : ℝ := 1 / 10 ^ 10

/-- `10 ** (image / 10)`: dB back to linear power. -/
noncomputable def linearPow (x : ℚ) : ℝ := (10 : ℝ) ^ ((x : ℝ) / 10)

/-- The per-pixel ratio map of `compare_images`:
`ratio = image2_linear / (image1_linear + 1e-10)`;
`ratio_db = 10 * np.log10(ratio + 1e-10)` (with `log10 t = log t / log 10`). -/
noncomputable def ratio_db (a b : ℚ) : ℝ :=
  10 * (Real.log (linearPow b / (linearPow a + epsR) + epsR) / Real.log 10)

/-! ### `estimate_melt_rate` of `sar_pipeline.py` -/

/-- Mean of a list (`sum / length`). -/
def meanL (l : List ℚ) : ℚ := l.sum / (l.length : ℚ)

/-- Sum of squared deviations of `xs` from its mean (`n * ssxm` in scipy terms;
only ratios of these sums are used, so the common factor `n` cancels). -/
def ssq (xs : List ℚ) : ℚ := (xs.map (fun x => (x - meanL xs) ^ 2)).sum

/-- Sum of products of deviations (`n * ssxym` in scipy terms). -/
def ssxy (xs ys : List ℚ) : ℚ :=
  ((xs.zip ys).map (fun p => (p.1 - meanL xs) * (p.2 - meanL ys))).sum

/-- `linregress` slope. -/
def slopeOf (xs ys : List ℚ) : ℚ := ssxy xs ys / ssq xs

/-- `linregress` r**2: scipy sets `r = 0` when `sqrt(ssxm * ssym) == 0`
(constant `y`), else `r = ssxym / sqrt(ssxm * ssym)`; this is its square. -/
def rsqOf (xs ys : List ℚ) : ℚ :=
  if ssq ys = 0 then 0 else (ssxy xs ys) ^ 2 / (ssq xs * ssq ys)

/-- `days = [(d - dates[0]).days for d in dates]`, dates as day numbers. -/
def daysOf (ts : List (ℤ × ℚ)) : List ℚ :=
  ts.map (fun p => ((p.1 - (ts.headD (0, 0)).1 : ℤ) : ℚ))

/-- `areas = [a for _, a in area_timeseries]`. -/
def areasOf (ts : List (ℤ × ℚ)) : List ℚ := ts.map Prod.snd

/-- The fields of `estimate_melt_rate`'s result record that the claims are
about.  Percentage fields are Python floats that could in principle be NaN,
hence `Option ℚ`; `(p_value, std_err)` involve the t-distribution and are
not modelled. -/
structure MeltRateResult where
  annual_rate_km2 : ℚ
  annual_rate_percent : Option ℚ
  r_squared : ℚ
  total_change_km2 : ℚ
  total_change_percent : Option ℚ

/-- `estimate_melt_rate(area_timeseries)` (lines 265-302): guard on fewer than
2 measurements; `scipy.stats.linregress` (which raises when all x values are
identical); `annual_rate_km2 = slope * 365.25`;
`percent_annual = (annual_rate_km2 / areas[0]) * 100 if areas[0] > 0 else 0`;
`total_change_percent = ((areas[-1] - areas[0]) / areas[0]) * 100 if areas[0] > 0 else 0`. -/
def estimate_melt_rate (ts : List (ℤ × ℚ)) : Except String MeltRateResult :=
  if ts.length < 2 then Except.error "Need at least 2 measurements"
  else if ssq (daysOf ts) = 0 then Except.error "all x values are identical"
  else
    let areas := areasOf ts
    let slope := slopeOf (daysOf ts) areas
    let annual := slope * (1461 / 4)
    let a0 := areas.headD 0
    Except.ok
      { annual_rate_km2 := annual
        annual_rate_percent := if 0 < a0 then some (annual / a0 * 100) else some 0
        r_squared := rsqOf (daysOf ts) areas
        total_change_km2 := areas.getLastD 0 - a0
        total_change_percent :=
          if 0 < a0 then some ((areas.getLastD 0 - a0) / a0 * 100) else some 0 }

/-- `analyze_trends` (time_series_processor.py line 279):
`relative_change_percent = ((areas[-1] - areas[0]) / areas[0] * 100) if areas[0] > 0 else 0`. -/
def relative_change_percent_trend (areas : List ℚ) : Option ℚ :=
  if 0 < areas.headD 0 then
    some ((areas.getLastD 0 - areas.headD 0) / areas.headD 0 * 100)
  else some 0

/-! ### Concrete inputs used by witnesses and counterexamples -/

/-- A 1×1 scene with a single valid pixel. -/
def sceneOne : Scene := ⟨1, 1, fun _ _ => 1, -25, 0⟩

/-- A 1×3 scene with pixel values 1, 2, 3: its darkest valid pixel is
removed from the shadow mask by the 3×3 opening. -/
def sceneRow : Scene :=
  ⟨1, 3, fun r c =>
    if r = 0 ∧ c = 0 then 1 else if r = 0 ∧ c = 1 then 2
    else if r = 0 ∧ c = 2 then 3 else 0, -25, 0⟩

/-- A 1×3 non-constant scene with a repeated value: its 15th and 30th
percentiles coincide. -/
def sceneTie : Scene :=
  ⟨1, 3, fun r c =>
    if r = 0 ∧ (c = 0 ∨ c = 1) then 1 else if r = 0 ∧ c = 2 then 2 else 0, -25, 0⟩

/-- A concrete (arbitrary) GCP-fitted transform used by the C3 witness. -/
def transEx : ℚ × ℚ → ℤ × ℤ := fun _ => (1000, -7)

/-- A concrete bounding box used by the C3 witness. -/
def bboxEx : BBoxQ := ⟨74, 75, 42, 43⟩

/-- A 1×1 dB raster with value -80 dB. -/
def qimgDark : QImage := ⟨1, 1, fun _ _ => -80⟩

/-- A 1×2 all-zero raster. -/
def qimgA : QImage := ⟨1, 2, fun _ _ => 0⟩

/-- A 1×3 all-zero raster (shape incompatible with `qimgA`). -/
def qimgB : QImage := ⟨1, 3, fun _ _ => 0⟩

/-- A 1×2 image with one NaN pixel and one finite pixel. -/
def eimgNaN : EImage :=
  ⟨1, 2, fun r c => if r = 0 ∧ c = 0 then none else some 1⟩

/-- A 1×1 NaN-free image. -/
def eimgFin : EImage := ⟨1, 1, fun _ _ => some 2⟩

/-- A 1×2 NaN-free dB image for the C10 witness. -/
def eimgTwo : EImage :=
  ⟨1, 2, fun r c => if r = 0 ∧ c = 0 then some (-10) else some (-20)⟩

/-- A zero-baseline time series: areas 0 then 1. -/
def tsZeroBase : List (ℤ × ℚ) := [(0, 0), (1, 1)]

/-- A zero-baseline three-point series. -/
def tsZeroBase3 : List (ℤ × ℚ) := [(0, 0), (1, 1), (2, 2)]

/-- A perfectly linear series with per-day increment 2. -/
def tsLinear : List (ℤ × ℚ) := [(0, 1), (1, 3), (2, 5)]

/-- A constant (slope-zero) series: lies on a line with increment 0. -/
def tsConst : List (ℤ × ℚ) := [(0, 5), (1, 5), (2, 5)]

/-! ## Theorems -/

/-! ### Percentile lemmas -/

theorem getD_mem_of_lt (s : List ℚ) {i : ℕ} (h : i < s.length) : s.getD i 0 ∈ s := by
  rw [List.getD_eq_getElem s 0 h]
  exact List.getElem_mem h

theorem sorted_getD_mono {s : List ℚ} (hs : s.Sorted (· ≤ ·)) {i j : ℕ} (hij : i ≤ j)
    (hj : j < s.length) : s.getD i 0 ≤ s.getD j 0 := by
  have hi : i < s.length := Nat.lt_of_le_of_lt hij hj
  rw [List.getD_eq_getElem s 0 hi, List.getD_eq_getElem s 0 hj]
  have h := hs.rel_get_of_le (show (⟨i, hi⟩ : Fin s.length) ≤ ⟨j, hj⟩ from hij)
  simpa using h

theorem percentile_mono (xs : List ℚ) (hne : xs ≠ []) {a b : ℚ} (ha : 0 ≤ a)
    (hab : a ≤ b) : percentile xs a ≤ percentile xs b := by
  have hs : (List.insertionSort (· ≤ ·) xs).Sorted (· ≤ ·) :=
    List.sorted_insertionSort (· ≤ ·) xs
  have hlen : xs.length = (List.insertionSort (· ≤ ·) xs).length :=
    ((List.perm_insertionSort (· ≤ ·) xs).length_eq).symm
  have hn : 0 < (List.insertionSort (· ≤ ·) xs).length := by
    rw [← hlen]; exact List.length_pos.mpr hne
  simp only [percentile]
  set s := List.insertionSort (· ≤ ·) xs with hsdef
  set n := s.length with hndef
  set posa := a * ((n : ℚ) - 1) / 100 with hposadef
  set posb := b * ((n : ℚ) - 1) / 100 with hposbdef
  have hn1 : (1 : ℚ) ≤ (n : ℚ) := by exact_mod_cast hn
  have hposa0 : 0 ≤ posa := by
    have h1 : (0 : ℚ) ≤ a * ((n : ℚ) - 1) := mul_nonneg ha (by linarith)
    rw [hposadef]; positivity
  have hposab : posa ≤ posb := by
    have h1 : a * ((n : ℚ) - 1) ≤ b * ((n : ℚ) - 1) :=
      mul_le_mul_of_nonneg_right hab (by linarith)
    rw [hposadef, hposbdef]; linarith
  have hposb0 : 0 ≤ posb := le_trans hposa0 hposab
  set i1 := (⌊posa⌋).toNat with hi1def
  set i2 := (⌊posb⌋).toNat with hi2def
  have hfa0 : 0 ≤ ⌊posa⌋ := Int.floor_nonneg.mpr hposa0
  have hfb0 : 0 ≤ ⌊posb⌋ := Int.floor_nonneg.mpr hposb0
  have hi1cast : ((i1 : ℚ)) = ((⌊posa⌋ : ℤ) : ℚ) := by
    rw [hi1def]; exact_mod_cast congrArg (fun z : ℤ => (z : ℚ)) (Int.toNat_of_nonneg hfa0)
  have hi2cast : ((i2 : ℚ)) = ((⌊posb⌋ : ℤ) : ℚ) := by
    rw [hi2def]; exact_mod_cast congrArg (fun z : ℤ => (z : ℚ)) (Int.toNat_of_nonneg hfb0)
  have h_i1_le : (i1 : ℚ) ≤ posa := by rw [hi1cast]; exact Int.floor_le posa
  have h_posa_lt : posa < (i1 : ℚ) + 1 := by rw [hi1cast]; exact Int.lt_floor_add_one posa
  have h_i2_le : (i2 : ℚ) ≤ posb := by rw [hi2cast]; exact Int.floor_le posb
  have hi12 : i1 ≤ i2 := by
    rw [hi1def, hi2def]; exact Int.toNat_le_toNat (Int.floor_mono hposab)
  split_ifs with h1 h2 h2
  · by_cases hEq : i1 = i2
    · rw [hEq] at h_i1_le h_posa_lt ⊢
      have hstep : s.getD i2 0 ≤ s.getD (i2 + 1) 0 := sorted_getD_mono hs (Nat.le_succ i2) h2
      nlinarith [mul_nonneg (by linarith : (0 : ℚ) ≤ posb - posa)
        (by linarith : (0 : ℚ) ≤ s.getD (i2 + 1) 0 - s.getD i2 0)]
    · have hlt : i1 < i2 := lt_of_le_of_ne hi12 hEq
      have e1 : s.getD i1 0 ≤ s.getD (i1 + 1) 0 := sorted_getD_mono hs (Nat.le_succ i1) h1
      have e2 : s.getD (i1 + 1) 0 ≤ s.getD i2 0 := sorted_getD_mono hs (by omega) (by omega)
      have e3 : s.getD i2 0 ≤ s.getD (i2 + 1) 0 := sorted_getD_mono hs (Nat.le_succ i2) h2
      have hp1 : (0 : ℚ) ≤ (1 - (posa - (i1 : ℚ))) * (s.getD (i1 + 1) 0 - s.getD i1 0) :=
        mul_nonneg (by linarith) (by linarith)
      have hp2 : (0 : ℚ) ≤ (posb - (i2 : ℚ)) * (s.getD (i2 + 1) 0 - s.getD i2 0) :=
        mul_nonneg (by linarith) (by linarith)
      nlinarith [hp1, hp2]
  · -- i1 interpolates, i2 hits the last entry
    have e1 : s.getD i1 0 ≤ s.getD (i1 + 1) 0 := sorted_getD_mono hs (Nat.le_succ i1) h1
    have e2 : s.getD (i1 + 1) 0 ≤ s.getD (n - 1) 0 := sorted_getD_mono hs (by omega) (by omega)
    have hp1 : (0 : ℚ) ≤ (1 - (posa - (i1 : ℚ))) * (s.getD (i1 + 1) 0 - s.getD i1 0) :=
      mul_nonneg (by linarith) (by linarith)
    nlinarith [hp1]
  · omega
  · exact le_refl _

theorem percentile_ge_of_lower_bound (xs : List ℚ) (hne : xs ≠ []) {b q : ℚ} (hq : 0 ≤ q)
    (hb : ∀ x ∈ xs, b ≤ x) : b ≤ percentile xs q := by
  have hs : (List.insertionSort (· ≤ ·) xs).Sorted (· ≤ ·) :=
    List.sorted_insertionSort (· ≤ ·) xs
  have hperm : List.Perm (List.insertionSort (· ≤ ·) xs) xs := List.perm_insertionSort (· ≤ ·) xs
  have hlen : xs.length = (List.insertionSort (· ≤ ·) xs).length := hperm.length_eq.symm
  have hn : 0 < (List.insertionSort (· ≤ ·) xs).length := by
    rw [← hlen]; exact List.length_pos.mpr hne
  have hbs : ∀ x ∈ List.insertionSort (· ≤ ·) xs, b ≤ x := fun x hx => hb x (hperm.mem_iff.mp hx)
  simp only [percentile]
  set s := List.insertionSort (· ≤ ·) xs with hsdef
  set n := s.length with hndef
  set pos := q * ((n : ℚ) - 1) / 100 with hposdef
  have hn1 : (1 : ℚ) ≤ (n : ℚ) := by exact_mod_cast hn
  have hpos0 : 0 ≤ pos := by
    have h1 : (0 : ℚ) ≤ q * ((n : ℚ) - 1) := mul_nonneg hq (by linarith)
    rw [hposdef]; positivity
  set i := (⌊pos⌋).toNat with hidef
  have hf0 : 0 ≤ ⌊pos⌋ := Int.floor_nonneg.mpr hpos0
  have hicast : ((i : ℚ)) = ((⌊pos⌋ : ℤ) : ℚ) := by
    rw [hidef]; exact_mod_cast congrArg (fun z : ℤ => (z : ℚ)) (Int.toNat_of_nonneg hf0)
  have h_i_le : (i : ℚ) ≤ pos := by rw [hicast]; exact Int.floor_le pos
  have h_pos_lt : pos < (i : ℚ) + 1 := by rw [hicast]; exact Int.lt_floor_add_one pos
  split_ifs with h1
  · have hb1 : b ≤ s.getD i 0 := hbs _ (getD_mem_of_lt s (by omega))
    have hb2 : b ≤ s.getD (i + 1) 0 := hbs _ (getD_mem_of_lt s (by omega))
    have hp1 : (0 : ℚ) ≤ (1 - (pos - (i : ℚ))) * (s.getD i 0 - b) :=
      mul_nonneg (by linarith) (by linarith)
    have hp2 : (0 : ℚ) ≤ (pos - (i : ℚ)) * (s.getD (i + 1) 0 - b) :=
      mul_nonneg (by linarith) (by linarith)
    nlinarith [hp1, hp2]
  · exact hbs _ (getD_mem_of_lt s (by omega))

theorem percentile_gt_of_strict_lower_bound (xs : List ℚ) (hne : xs ≠ []) {b q : ℚ}
    (hq : 0 ≤ q) (hb : ∀ x ∈ xs, b < x) : b < percentile xs q := by
  have hs : (List.insertionSort (· ≤ ·) xs).Sorted (· ≤ ·) :=
    List.sorted_insertionSort (· ≤ ·) xs
  have hperm : List.Perm (List.insertionSort (· ≤ ·) xs) xs := List.perm_insertionSort (· ≤ ·) xs
  have hlen : xs.length = (List.insertionSort (· ≤ ·) xs).length := hperm.length_eq.symm
  have hn : 0 < (List.insertionSort (· ≤ ·) xs).length := by
    rw [← hlen]; exact List.length_pos.mpr hne
  have hbs : ∀ x ∈ List.insertionSort (· ≤ ·) xs, b < x := fun x hx => hb x (hperm.mem_iff.mp hx)
  simp only [percentile]
  set s := List.insertionSort (· ≤ ·) xs with hsdef
  set n := s.length with hndef
  set pos := q * ((n : ℚ) - 1) / 100 with hposdef
  have hn1 : (1 : ℚ) ≤ (n : ℚ) := by exact_mod_cast hn
  have hpos0 : 0 ≤ pos := by
    have h1 : (0 : ℚ) ≤ q * ((n : ℚ) - 1) := mul_nonneg hq (by linarith)
    rw [hposdef]; positivity
  set i := (⌊pos⌋).toNat with hidef
  have hf0 : 0 ≤ ⌊pos⌋ := Int.floor_nonneg.mpr hpos0
  have hicast : ((i : ℚ)) = ((⌊pos⌋ : ℤ) : ℚ) := by
    rw [hidef]; exact_mod_cast congrArg (fun z : ℤ => (z : ℚ)) (Int.toNat_of_nonneg hf0)
  have h_i_le : (i : ℚ) ≤ pos := by rw [hicast]; exact Int.floor_le pos
  have h_pos_lt : pos < (i : ℚ) + 1 := by rw [hicast]; exact Int.lt_floor_add_one pos
  split_ifs with h1
  · have hb1 : b < s.getD i 0 := hbs _ (getD_mem_of_lt s (by omega))
    have hb2 : b < s.getD (i + 1) 0 := hbs _ (getD_mem_of_lt s (by omega))
    have hp1 : (0 : ℚ) < (1 - (pos - (i : ℚ))) * (s.getD i 0 - b) :=
      mul_pos (by linarith) (by linarith)
    have hp2 : (0 : ℚ) ≤ (pos - (i : ℚ)) * (s.getD (i + 1) 0 - b) :=
      mul_nonneg (by linarith) (by linarith)
    nlinarith [hp1, hp2]
  · exact hbs _ (getD_mem_of_lt s (by omega))

/-! ### C4: percentile thresholds -/

/-- C4 (amended): on any raster with at least one valid pixel, the classifier
thresholds (1st, 5th, 15th, 30th, 50th, 70th, 85th percentiles of the valid
dB values) are monotonically non-decreasing; strict increase does not hold in
general (see the counterexample), because repeated data values can make
distinct percentiles coincide. -/
theorem C4_thresholds_monotone (sc : Scene) (hv : validDb sc ≠ []) :
    very_dark_threshold sc ≤ shadow_threshold sc ∧
    shadow_threshold sc ≤ p10 sc ∧ p10 sc ≤ p25 sc ∧ p25 sc ≤ p45 sc ∧
    p45 sc ≤ p65 sc ∧ p65 sc ≤ p85 sc :=
  ⟨percentile_mono (validDb sc) hv (by norm_num) (by norm_num),
   percentile_mono (validDb sc) hv (by norm_num) (by norm_num),
   percentile_mono (validDb sc) hv (by norm_num) (by norm_num),
   percentile_mono (validDb sc) hv (by norm_num) (by norm_num),
   percentile_mono (validDb sc) hv (by norm_num) (by norm_num),
   percentile_mono (validDb sc) hv (by norm_num) (by norm_num)⟩

/-- C4 counterexample: `sceneTie` is finite-valued and non-constant (two valid
pixels carry different dB values), the configured percentiles 15 < 30 are
strictly increasing, yet the computed thresholds `p10` and `p25` are equal –
the thresholds are not strictly increasing. -/
theorem C4_counterexample :
    dbAt sceneTie 0 0 ≠ dbAt sceneTie 0 2 ∧ validPix sceneTie 0 0 = true ∧
    validPix sceneTie 0 2 = true ∧ (15 : ℚ) < 30 ∧ p10 sceneTie = p25 sceneTie := by
  refine ⟨by norm_num [dbAt, sceneTie, pixel_to_db],
    by norm_num [validPix, sceneTie, Scene.inB],
    by norm_num [validPix, sceneTie, Scene.inB],
    by norm_num,
    by norm_num [p10, p25, percentile, validDb, sceneTie, dbAt, pixel_to_db, List.range_succ,
      List.insertionSort, List.orderedInsert, List.getD]⟩

/-- C4 witness: the amended theorem applied to the concrete scene `sceneOne`. -/
theorem C4_witness :
    validDb sceneOne ≠ [] ∧
    (very_dark_threshold sceneOne ≤ shadow_threshold sceneOne ∧
     shadow_threshold sceneOne ≤ p10 sceneOne ∧ p10 sceneOne ≤ p25 sceneOne ∧
     p25 sceneOne ≤ p45 sceneOne ∧ p45 sceneOne ≤ p65 sceneOne ∧
     p65 sceneOne ≤ p85 sceneOne) :=
  ⟨by norm_num [validDb, sceneOne, List.range_succ],
   C4_thresholds_monotone sceneOne (by norm_num [validDb, sceneOne, List.range_succ])⟩

/-! ### C3: window resolution stays inside the raster -/

/-- C3: for every GCP-fitted transform (any function from lon/lat to
row/col, which subsumes every transform `rasterio.transform.from_gcps`
can fit from ≥4 non-collinear control points), every target bounding box
and every raster of positive size, the resolved window is fully contained
in `[0, width) × [0, height)`: each mapped corner is clamped by `np.clip`
into the raster extent, so `(pixel_min, pixel_max, line_min, line_max)`
never index outside the raster. -/
theorem C3_resolveWindow_in_bounds (T : ℚ × ℚ → ℤ × ℤ) (bb : BBoxQ) (w h : ℤ)
    (hw : 1 ≤ w) (hh : 1 ≤ h) :
    0 ≤ (resolveWindow T bb w h).pixelMin ∧ (resolveWindow T bb w h).pixelMin < w ∧
    0 ≤ (resolveWindow T bb w h).pixelMax ∧ (resolveWindow T bb w h).pixelMax < w ∧
    0 ≤ (resolveWindow T bb w h).lineMin ∧ (resolveWindow T bb w h).lineMin < h ∧
    0 ≤ (resolveWindow T bb w h).lineMax ∧ (resolveWindow T bb w h).lineMax < h := by
  simp only [resolveWindow, lonlat_to_pixel, npClip]
  omega

/-- C3 witness: the theorem applied to a concrete transform, bounding box
and raster size. -/
theorem C3_witness :
    (1 : ℤ) ≤ 100 ∧ (1 : ℤ) ≤ 50 ∧
    (0 ≤ (resolveWindow transEx bboxEx 100 50).pixelMin ∧
     (resolveWindow transEx bboxEx 100 50).pixelMin < 100 ∧
     0 ≤ (resolveWindow transEx bboxEx 100 50).pixelMax ∧
     (resolveWindow transEx bboxEx 100 50).pixelMax < 100 ∧
     0 ≤ (resolveWindow transEx bboxEx 100 50).lineMin ∧
     (resolveWindow transEx bboxEx 100 50).lineMin < 50 ∧
     0 ≤ (resolveWindow transEx bboxEx 100 50).lineMax ∧
     (resolveWindow transEx bboxEx 100 50).lineMax < 50) :=
  ⟨by norm_num, by norm_num,
   C3_resolveWindow_in_bounds transEx bboxEx 100 50 (by norm_num) (by norm_num)⟩

/-! ### Morphology and mask lemmas for C1 and C2 -/

theorem binary_opening3_subset (m : ℤ → ℤ → Bool) (r c : ℤ)
    (h : binary_opening3 m r c = true) : m r c = true := by
  simp only [binary_opening3, binary_dilation3, List.any_eq_true] at h
  obtain ⟨d, hd, he⟩ := h
  simp only [binary_erosion3, List.all_eq_true] at he
  have hneg : ((-d.1, -d.2) : ℤ × ℤ) ∈ nbhd3 := by
    fin_cases hd <;> simp [nbhd3]
  have h1 := he ((-d.1, -d.2) : ℤ × ℤ) hneg
  dsimp only at h1
  have e1 : r + d.1 + -d.1 = r := by ring
  have e2 : c + d.2 + -d.2 = c := by ring
  rw [e1, e2] at h1
  exact h1

theorem shadows_ub {sc : Scene} {r c : ℤ} (h : shadows_rock_mask sc r c = true) :
    dbAt sc r c ≤ very_dark_threshold sc := by
  simp only [shadows_rock_mask, Bool.and_eq_true] at h
  have hraw := binary_opening3_subset (shadows_rock_raw sc) r c h.1
  simp only [shadows_rock_raw, Bool.and_eq_true, decide_eq_true_eq] at hraw
  exact hraw.2

theorem shadows_valid {sc : Scene} {r c : ℤ} (h : shadows_rock_mask sc r c = true) :
    validPix sc r c = true := by
  simp only [shadows_rock_mask, Bool.and_eq_true] at h
  have hraw := binary_opening3_subset (shadows_rock_raw sc) r c h.1
  simp only [shadows_rock_raw, Bool.and_eq_true] at hraw
  simp only [validPix, Bool.and_eq_true]
  exact ⟨hraw.1, h.2⟩

theorem terrain_lb {sc : Scene} {r c : ℤ} (h : dark_terrain_mask sc r c = true) :
    very_dark_threshold sc < dbAt sc r c := by
  simp only [dark_terrain_mask, Bool.and_eq_true] at h
  have hraw := binary_opening3_subset (dark_terrain_raw sc) r c h.1
  simp only [dark_terrain_raw, Bool.and_eq_true, decide_eq_true_eq] at hraw
  exact hraw.1.2

theorem terrain_ub {sc : Scene} {r c : ℤ} (h : dark_terrain_mask sc r c = true) :
    dbAt sc r c ≤ shadow_threshold sc := by
  simp only [dark_terrain_mask, Bool.and_eq_true] at h
  have hraw := binary_opening3_subset (dark_terrain_raw sc) r c h.1
  simp only [dark_terrain_raw, Bool.and_eq_true, decide_eq_true_eq] at hraw
  exact hraw.2

theorem terrain_valid {sc : Scene} {r c : ℤ} (h : dark_terrain_mask sc r c = true) :
    validPix sc r c = true := by
  simp only [dark_terrain_mask, Bool.and_eq_true] at h
  have hraw := binary_opening3_subset (dark_terrain_raw sc) r c h.1
  simp only [dark_terrain_raw, Bool.and_eq_true] at hraw
  simp only [validPix, Bool.and_eq_true]
  exact ⟨hraw.1.1, h.2⟩

theorem deep_lb {sc : Scene} {r c : ℤ} (h : deep_glacier sc r c = true) :
    shadow_threshold sc < dbAt sc r c := by
  simp only [deep_glacier, Bool.and_eq_true, decide_eq_true_eq] at h
  exact h.1.2

theorem deep_ub {sc : Scene} {r c : ℤ} (h : deep_glacier sc r c = true) :
    dbAt sc r c ≤ p10 sc := by
  simp only [deep_glacier, Bool.and_eq_true, decide_eq_true_eq] at h
  exact h.2

theorem regular_lb {sc : Scene} {r c : ℤ} (h : regular_glacier sc r c = true) :
    p10 sc < dbAt sc r c := by
  simp only [regular_glacier, Bool.and_eq_true, decide_eq_true_eq] at h
  exact h.1.2

theorem regular_ub {sc : Scene} {r c : ℤ} (h : regular_glacier sc r c = true) :
    dbAt sc r c ≤ p25 sc := by
  simp only [regular_glacier, Bool.and_eq_true, decide_eq_true_eq] at h
  exact h.2

theorem clean_lb {sc : Scene} {r c : ℤ} (h : clean_glacier sc r c = true) :
    p25 sc < dbAt sc r c := by
  simp only [clean_glacier, Bool.and_eq_true, decide_eq_true_eq] at h
  exact h.1.2

theorem clean_ub {sc : Scene} {r c : ℤ} (h : clean_glacier sc r c = true) :
    dbAt sc r c ≤ p45 sc := by
  simp only [clean_glacier, Bool.and_eq_true, decide_eq_true_eq] at h
  exact h.2

theorem mixed_lb {sc : Scene} {r c : ℤ} (h : mixed_snow sc r c = true) :
    p45 sc < dbAt sc r c := by
  simp only [mixed_snow, Bool.and_eq_true, decide_eq_true_eq] at h
  exact h.1.2

theorem mixed_ub {sc : Scene} {r c : ℤ} (h : mixed_snow sc r c = true) :
    dbAt sc r c ≤ p65 sc := by
  simp only [mixed_snow, Bool.and_eq_true, decide_eq_true_eq] at h
  exact h.2

theorem debris_lb {sc : Scene} {r c : ℤ} (h : debris_rock sc r c = true) :
    p65 sc < dbAt sc r c := by
  simp only [debris_rock, Bool.and_eq_true, decide_eq_true_eq] at h
  exact h.2

theorem validDb_gt_dbMin (sc : Scene) (hdb : sc.dbMin < sc.dbMax) :
    ∀ x ∈ validDb sc, sc.dbMin < x := by
  intro x hx
  simp only [validDb, List.mem_flatten, List.mem_map] at hx
  obtain ⟨l, ⟨r, hr, rfl⟩, hx⟩ := hx
  obtain ⟨c, hc, rfl⟩ := List.mem_map.mp hx
  have hcf := (List.mem_filter.mp hc).2
  simp only [decide_eq_true_eq] at hcf
  simp only [dbAt, pixel_to_db]
  have hv : (1 : ℚ) ≤ ((sc.pix (r : ℤ) (c : ℤ)) : ℚ) := by exact_mod_cast hcf
  have hpos : 0 < ((sc.pix (r : ℤ) (c : ℤ)) : ℚ) / 255 * (sc.dbMax - sc.dbMin) :=
    mul_pos (by linarith) (by linarith)
  linarith

/-! ### C1: total glacier excludes shadow, terrain and debris classes -/

/-- C1: the reported total-glacier pixel count is exactly the sum of the
counts of the three glacier-ice sub-classes plus the snow/mixed class (and
the reported percentage is this count over the valid-pixel count), and no
pixel of the shadow/rock mask, the dark-terrain mask or the debris/rock
mask lies in any of the four glacier classes. -/
theorem C1_total_glacier_excludes_nonglacier (sc : Scene) (hv : validDb sc ≠ []) :
    total_glacier_count sc =
      deep_glacier_count sc + regular_glacier_count sc + clean_glacier_count sc
        + mixed_snow_count sc ∧
    total_glacier_percent sc = ((total_glacier_count sc : ℚ) / (total_valid sc : ℚ)) * 100 ∧
    ∀ r c : ℤ,
      (shadows_rock_mask sc r c = true ∨ dark_terrain_mask sc r c = true ∨
        debris_rock sc r c = true) →
      deep_glacier sc r c = false ∧ regular_glacier sc r c = false ∧
        clean_glacier sc r c = false ∧ mixed_snow sc r c = false := by
  refine ⟨rfl, rfl, ?_⟩
  intro r c h
  have c1 : very_dark_threshold sc ≤ shadow_threshold sc :=
    percentile_mono (validDb sc) hv (by norm_num) (by norm_num)
  have c2 : shadow_threshold sc ≤ p10 sc :=
    percentile_mono (validDb sc) hv (by norm_num) (by norm_num)
  have c3 : p10 sc ≤ p25 sc :=
    percentile_mono (validDb sc) hv (by norm_num) (by norm_num)
  have c4 : p25 sc ≤ p45 sc :=
    percentile_mono (validDb sc) hv (by norm_num) (by norm_num)
  have c5 : p45 sc ≤ p65 sc :=
    percentile_mono (validDb sc) hv (by norm_num) (by norm_num)
  rcases h with hS | hT | hB
  · have hub := shadows_ub hS
    refine ⟨?_, ?_, ?_, ?_⟩
    · cases hx : deep_glacier sc r c with
      | false => rfl
      | true => exact absurd (deep_lb hx) (not_lt.mpr (by linarith))
    · cases hx : regular_glacier sc r c with
      | false => rfl
      | true => exact absurd (regular_lb hx) (not_lt.mpr (by linarith))
    · cases hx : clean_glacier sc r c with
      | false => rfl
      | true => exact absurd (clean_lb hx) (not_lt.mpr (by linarith))
    · cases hx : mixed_snow sc r c with
      | false => rfl
      | true => exact absurd (mixed_lb hx) (not_lt.mpr (by linarith))
  · have hub := terrain_ub hT
    refine ⟨?_, ?_, ?_, ?_⟩
    · cases hx : deep_glacier sc r c with
      | false => rfl
      | true => exact absurd (deep_lb hx) (not_lt.mpr (by linarith))
    · cases hx : regular_glacier sc r c with
      | false => rfl
      | true => exact absurd (regular_lb hx) (not_lt.mpr (by linarith))
    · cases hx : clean_glacier sc r c with
      | false => rfl
      | true => exact absurd (clean_lb hx) (not_lt.mpr (by linarith))
    · cases hx : mixed_snow sc r c with
      | false => rfl
      | true => exact absurd (mixed_lb hx) (not_lt.mpr (by linarith))
  · have hlb := debris_lb hB
    refine ⟨?_, ?_, ?_, ?_⟩
    · cases hx : deep_glacier sc r c with
      | false => rfl
      | true => exact absurd (deep_ub hx) (not_le.mpr (by linarith))
    · cases hx : regular_glacier sc r c with
      | false => rfl
      | true => exact absurd (regular_ub hx) (not_le.mpr (by linarith))
    · cases hx : clean_glacier sc r c with
      | false => rfl
      | true => exact absurd (clean_ub hx) (not_le.mpr (by linarith))
    · cases hx : mixed_snow sc r c with
      | false => rfl
      | true => exact absurd (mixed_ub hx) (not_le.mpr (by linarith))

/-- C1 witness: the theorem applied to the concrete scene `sceneOne`. -/
theorem C1_witness :
    validDb sceneOne ≠ [] ∧
    (total_glacier_count sceneOne =
      deep_glacier_count sceneOne + regular_glacier_count sceneOne
        + clean_glacier_count sceneOne + mixed_snow_count sceneOne ∧
    total_glacier_percent sceneOne =
      ((total_glacier_count sceneOne : ℚ) / (total_valid sceneOne : ℚ)) * 100 ∧
    ∀ r c : ℤ,
      (shadows_rock_mask sceneOne r c = true ∨ dark_terrain_mask sceneOne r c = true ∨
        debris_rock sceneOne r c = true) →
      deep_glacier sceneOne r c = false ∧ regular_glacier sceneOne r c = false ∧
        clean_glacier sceneOne r c = false ∧ mixed_snow sceneOne r c = false) :=
  ⟨by norm_num [validDb, sceneOne, List.range_succ],
   C1_total_glacier_excludes_nonglacier sceneOne
     (by norm_num [validDb, sceneOne, List.range_succ])⟩

/-! ### C2: the seven masks are pairwise disjoint but not exhaustive -/

/-- C2 (amended): on any raster with at least one valid pixel (and a
well-formed dB range), the seven per-class masks are pairwise disjoint and
every masked pixel is a valid pixel; but the masks need not cover all valid
pixels: the morphological opening of the shadow/terrain masks can remove
isolated dark pixels from every class (see the counterexample), so the union
can be a proper subset of the valid set. -/
theorem C2_masks_disjoint_and_subset (sc : Scene) (hv : validDb sc ≠ [])
    (hdb : sc.dbMin < sc.dbMax) :
    (∀ m ∈ classMasks sc, ∀ r c : ℤ, m r c = true → validPix sc r c = true) ∧
    (∀ r c : ℤ, ∀ m₁ ∈ classMasks sc, ∀ m₂ ∈ classMasks sc,
      m₁ r c = true → m₂ r c = true → m₁ = m₂) := by
  have c1 : very_dark_threshold sc ≤ shadow_threshold sc :=
    percentile_mono (validDb sc) hv (by norm_num) (by norm_num)
  have c2 : shadow_threshold sc ≤ p10 sc :=
    percentile_mono (validDb sc) hv (by norm_num) (by norm_num)
  have c3 : p10 sc ≤ p25 sc :=
    percentile_mono (validDb sc) hv (by norm_num) (by norm_num)
  have c4 : p25 sc ≤ p45 sc :=
    percentile_mono (validDb sc) hv (by norm_num) (by norm_num)
  have c5 : p45 sc ≤ p65 sc :=
    percentile_mono (validDb sc) hv (by norm_num) (by norm_num)
  have hmin : sc.dbMin < very_dark_threshold sc :=
    percentile_gt_of_strict_lower_bound (validDb sc) hv (by norm_num)
      (validDb_gt_dbMin sc hdb)
  have hzero : ∀ r c : ℤ, sc.inB r c = true → sc.pix r c = 0 →
      dbAt sc r c = sc.dbMin := by
    intro r c _ hp
    simp [dbAt, pixel_to_db, hp]
  constructor
  · intro m hm r c h
    simp only [classMasks, List.mem_cons, List.not_mem_nil, or_false] at hm
    have key : ∀ hin : sc.inB r c = true, ∀ hgt : very_dark_threshold sc < dbAt sc r c,
        validPix sc r c = true := by
      intro hin hgt
      simp only [validPix, Bool.and_eq_true, hin, true_and, decide_eq_true_eq]
      by_contra hp
      have hp0 : sc.pix r c = 0 := by omega
      rw [hzero r c hin hp0] at hgt
      linarith
    rcases hm with rfl | rfl | rfl | rfl | rfl | rfl | rfl
    · exact shadows_valid h
    · exact terrain_valid h
    · have hin : sc.inB r c = true := by
        simp only [deep_glacier, Bool.and_eq_true] at h; exact h.1.1
      exact key hin (by have := deep_lb h; linarith)
    · have hin : sc.inB r c = true := by
        simp only [regular_glacier, Bool.and_eq_true] at h; exact h.1.1
      exact key hin (by have := regular_lb h; linarith)
    · have hin : sc.inB r c = true := by
        simp only [clean_glacier, Bool.and_eq_true] at h; exact h.1.1
      exact key hin (by have := clean_lb h; linarith)
    · have hin : sc.inB r c = true := by
        simp only [mixed_snow, Bool.and_eq_true] at h; exact h.1.1
      exact key hin (by have := mixed_lb h; linarith)
    · have hin : sc.inB r c = true := by
        simp only [debris_rock, Bool.and_eq_true] at h; exact h.1
      exact key hin (by have := debris_lb h; linarith)
  · intro r c m₁ hm₁ m₂ hm₂ h₁ h₂
    have hf : ∀ m, m ∈ classMasks sc → m r c = true →
        (m = shadows_rock_mask sc ∧ dbAt sc r c ≤ very_dark_threshold sc) ∨
        (m = dark_terrain_mask sc ∧ very_dark_threshold sc < dbAt sc r c ∧
          dbAt sc r c ≤ shadow_threshold sc) ∨
        (m = deep_glacier sc ∧ shadow_threshold sc < dbAt sc r c ∧
          dbAt sc r c ≤ p10 sc) ∨
        (m = regular_glacier sc ∧ p10 sc < dbAt sc r c ∧ dbAt sc r c ≤ p25 sc) ∨
        (m = clean_glacier sc ∧ p25 sc < dbAt sc r c ∧ dbAt sc r c ≤ p45 sc) ∨
        (m = mixed_snow sc ∧ p45 sc < dbAt sc r c ∧ dbAt sc r c ≤ p65 sc) ∨
        (m = debris_rock sc ∧ p65 sc < dbAt sc r c) := by
      intro m hm h
      simp only [classMasks, List.mem_cons, List.not_mem_nil, or_false] at hm
      rcases hm with rfl | rfl | rfl | rfl | rfl | rfl | rfl
      · exact Or.inl ⟨rfl, shadows_ub h⟩
      · exact Or.inr (Or.inl ⟨rfl, terrain_lb h, terrain_ub h⟩)
      · exact Or.inr (Or.inr (Or.inl ⟨rfl, deep_lb h, deep_ub h⟩))
      · exact Or.inr (Or.inr (Or.inr (Or.inl ⟨rfl, regular_lb h, regular_ub h⟩)))
      · exact Or.inr (Or.inr (Or.inr (Or.inr (Or.inl ⟨rfl, clean_lb h, clean_ub h⟩))))
      · exact Or.inr (Or.inr (Or.inr (Or.inr (Or.inr
          (Or.inl ⟨rfl, mixed_lb h, mixed_ub h⟩)))))
      · exact Or.inr (Or.inr (Or.inr (Or.inr (Or.inr (Or.inr ⟨rfl, debris_lb h⟩)))))
    have hc₁ := hf m₁ hm₁ h₁
    have hc₂ := hf m₂ hm₂ h₂
    rcases hc₁ with ⟨e₁, f₁⟩ | ⟨e₁, f₁, g₁⟩ | ⟨e₁, f₁, g₁⟩ | ⟨e₁, f₁, g₁⟩ |
        ⟨e₁, f₁, g₁⟩ | ⟨e₁, f₁, g₁⟩ | ⟨e₁, f₁⟩ <;>
      rcases hc₂ with ⟨e₂, f₂⟩ | ⟨e₂, f₂, g₂⟩ | ⟨e₂, f₂, g₂⟩ | ⟨e₂, f₂, g₂⟩ |
        ⟨e₂, f₂, g₂⟩ | ⟨e₂, f₂, g₂⟩ | ⟨e₂, f₂⟩ <;>
      first
      | linarith
      | (rw [e₁, e₂])

/-- C2 counterexample: in `sceneRow` the pixel `(0, 0)` is a valid (finite,
non-background) pixel, yet it belongs to none of the seven class masks: the
3×3 opening removes the isolated darkest pixel from the shadow/rock mask and
no other class admits it, so the union of the masks is a proper subset of
the valid pixels, refuting the claimed exhaustive partition. -/
theorem C2_counterexample :
    validPix sceneRow 0 0 = true ∧ ∀ m ∈ classMasks sceneRow, m 0 0 = false := by
  constructor
  · norm_num [validPix, sceneRow, Scene.inB]
  · intro m hm
    simp only [classMasks, List.mem_cons, List.not_mem_nil, or_false] at hm
    rcases hm with rfl | rfl | rfl | rfl | rfl | rfl | rfl <;>
      norm_num [shadows_rock_mask, dark_terrain_mask, deep_glacier, regular_glacier,
        clean_glacier, mixed_snow, debris_rock, cleaned_shadows, cleaned_terrain,
        binary_opening3, binary_dilation3, binary_erosion3, nbhd3, shadows_rock_raw,
        dark_terrain_raw, Scene.inB, sceneRow, dbAt, pixel_to_db, very_dark_threshold,
        shadow_threshold, p10, p25, p45, p65, percentile, validDb, List.range_succ,
        List.insertionSort, List.orderedInsert, List.getD]

/-- C2 witness: the amended theorem applied to the concrete scene `sceneOne`. -/
theorem C2_witness :
    validDb sceneOne ≠ [] ∧ sceneOne.dbMin < sceneOne.dbMax ∧
    ((∀ m ∈ classMasks sceneOne, ∀ r c : ℤ, m r c = true → validPix sceneOne r c = true) ∧
     (∀ r c : ℤ, ∀ m₁ ∈ classMasks sceneOne, ∀ m₂ ∈ classMasks sceneOne,
       m₁ r c = true → m₂ r c = true → m₁ = m₂)) :=
  ⟨by norm_num [validDb, sceneOne, List.range_succ],
   by norm_num [sceneOne],
   C2_masks_disjoint_and_subset sceneOne
     (by norm_num [validDb, sceneOne, List.range_succ]) (by norm_num [sceneOne])⟩

/-! ### Regression lemmas for C6 and C7 -/

theorem sum_map_linear (l : List ℚ) (m c : ℚ) :
    (l.map (fun x => m * x + c)).sum = m * l.sum + c * (l.length : ℚ) := by
  induction l with
  | nil => simp
  | cons x t ih =>
      simp only [List.map_cons, List.sum_cons, ih, List.length_cons]
      push_cast
      ring

theorem meanL_map_linear (l : List ℚ) (hl : l ≠ []) (m c : ℚ) :
    meanL (l.map (fun x => m * x + c)) = m * meanL l + c := by
  have hn : ((l.length : ℚ)) ≠ 0 := by
    have := List.length_pos.mpr hl
    positivity
  simp only [meanL, List.length_map, sum_map_linear]
  field_simp

theorem sum_map_mul_left (l : List ℚ) (a : ℚ) (f : ℚ → ℚ) :
    (l.map (fun x => a * f x)).sum = a * (l.map f).sum := by
  induction l with
  | nil => simp
  | cons x t ih =>
      simp only [List.map_cons, List.sum_cons, ih]
      ring

theorem zip_self_map (l : List ℚ) (f : ℚ → ℚ) :
    l.zip (l.map f) = l.map (fun x => (x, f x)) := by
  induction l with
  | nil => simp
  | cons x t ih => simp [List.zip_cons_cons, ih]

theorem ssxy_linear (l : List ℚ) (hl : l ≠ []) (m c : ℚ) :
    ssxy l (l.map (fun x => m * x + c)) = m * ssq l := by
  simp only [ssxy, zip_self_map, List.map_map, meanL_map_linear l hl]
  have he : ((fun p : ℚ × ℚ => (p.1 - meanL l) * (p.2 - (m * meanL l + c))) ∘
      fun x => (x, m * x + c)) = fun x => m * ((x - meanL l) ^ 2) := by
    funext x
    simp only [Function.comp_apply]
    ring
  rw [he, sum_map_mul_left]
  rfl

theorem ssq_linear (l : List ℚ) (hl : l ≠ []) (m c : ℚ) :
    ssq (l.map (fun x => m * x + c)) = m ^ 2 * ssq l := by
  simp only [ssq, List.map_map, meanL_map_linear l hl]
  have he : ((fun y => (y - (m * meanL l + c)) ^ 2) ∘ fun x => m * x + c) =
      fun x => m ^ 2 * ((x - meanL l) ^ 2) := by
    funext x
    simp only [Function.comp_apply]
    ring
  rw [he, sum_map_mul_left]

theorem sum_eq_zero_all_zero {l : List ℚ} (h0 : ∀ x ∈ l, 0 ≤ x) (hs : l.sum = 0) :
    ∀ x ∈ l, x = 0 := by
  induction l with
  | nil => intro x hx; cases hx
  | cons y t ih =>
      have hy : 0 ≤ y := h0 y (List.mem_cons_self y t)
      have ht : 0 ≤ t.sum := List.sum_nonneg (fun x hx => h0 x (List.mem_cons_of_mem y hx))
      simp only [List.sum_cons] at hs
      have hy0 : y = 0 := by linarith
      have hts : t.sum = 0 := by linarith
      intro x hx
      rcases List.mem_cons.mp hx with rfl | hx
      · exact hy0
      · exact ih (fun z hz => h0 z (List.mem_cons_of_mem y hz)) hts x hx

theorem ssq_nonneg (l : List ℚ) : 0 ≤ ssq l := by
  apply List.sum_nonneg
  intro x hx
  obtain ⟨y, _, rfl⟩ := List.mem_map.mp hx
  positivity

theorem ssq_pos_of_ne {l : List ℚ} {a b : ℚ} (ha : a ∈ l) (hb : b ∈ l) (hab : a ≠ b) :
    0 < ssq l := by
  rcases lt_or_eq_of_le (ssq_nonneg l) with h | h
  · exact h
  · exfalso
    have hall := sum_eq_zero_all_zero (l := l.map (fun x => (x - meanL l) ^ 2))
      (fun x hx => by obtain ⟨y, _, rfl⟩ := List.mem_map.mp hx; positivity) h.symm
    have ha0 : (a - meanL l) ^ 2 = 0 :=
      hall _ (List.mem_map_of_mem (fun x => (x - meanL l) ^ 2) ha)
    have hb0 : (b - meanL l) ^ 2 = 0 :=
      hall _ (List.mem_map_of_mem (fun x => (x - meanL l) ^ 2) hb)
    have ha1 : a = meanL l := by nlinarith [sq_nonneg (a - meanL l)]
    have hb1 : b = meanL l := by nlinarith [sq_nonneg (b - meanL l)]
    exact hab (ha1.trans hb1.symm)

/-! ### C6: zero baseline is reported as 0, not NaN, and raises no error -/

/-- C6 (amended): when the first area value of the series is exactly zero
(and the series satisfies the regression preconditions: at least 2 points,
not all dates identical), `estimate_melt_rate` does not raise on account of
the zero baseline and reports the relative/percentage change fields as the
finite value `0` — not as NaN, contrary to the claim; `analyze_trends`'
`relative_change_percent` behaves identically. -/
theorem C6_zero_baseline_reports_zero (ts : List (ℤ × ℚ)) (h2 : 2 ≤ ts.length)
    (hssq : ssq (daysOf ts) ≠ 0) (h0 : (areasOf ts).headD 0 = 0) :
    ∃ res, estimate_melt_rate ts = Except.ok res ∧
      res.annual_rate_percent = some 0 ∧ res.annual_rate_percent ≠ none ∧
      res.total_change_percent = some 0 ∧ res.total_change_percent ≠ none ∧
      relative_change_percent_trend (areasOf ts) = some 0 := by
  have hg1 : ¬(ts.length < 2) := by omega
  have h0' : (areasOf ts).head?.getD 0 = 0 := by simpa [List.headD_eq_head?_getD] using h0
  simp only [estimate_melt_rate]
  rw [if_neg hg1, if_neg hssq]
  refine ⟨_, rfl, ?_, ?_, ?_, ?_, ?_⟩
  · simp [h0']
  · simp [h0']
  · simp [h0']
  · simp [h0']
  · simp [relative_change_percent_trend, h0']

/-- C6 counterexample: for the concrete zero-baseline series `tsZeroBase`
(areas 0 then 1), `estimate_melt_rate` succeeds and reports the percentage
fields as the finite value 0, which is not the claimed NaN marker. -/
theorem C6_counterexample :
    (estimate_melt_rate tsZeroBase).toOption.map MeltRateResult.annual_rate_percent
      = some (some 0) ∧
    (estimate_melt_rate tsZeroBase).toOption.map MeltRateResult.total_change_percent
      = some (some 0) ∧
    (some (0 : ℚ) : Option ℚ) ≠ none := by
  refine ⟨?_, ?_, by simp⟩ <;>
    norm_num [estimate_melt_rate, tsZeroBase, daysOf, areasOf, ssq, ssxy, meanL,
      slopeOf, rsqOf, Except.toOption]

/-- C6 witness: the amended theorem applied to the concrete series
`tsZeroBase3`. -/
theorem C6_witness :
    2 ≤ tsZeroBase3.length ∧ ssq (daysOf tsZeroBase3) ≠ 0 ∧
    (areasOf tsZeroBase3).headD 0 = 0 ∧
    (∃ res, estimate_melt_rate tsZeroBase3 = Except.ok res ∧
      res.annual_rate_percent = some 0 ∧ res.annual_rate_percent ≠ none ∧
      res.total_change_percent = some 0 ∧ res.total_change_percent ≠ none ∧
      relative_change_percent_trend (areasOf tsZeroBase3) = some 0) :=
  ⟨by norm_num [tsZeroBase3],
   by norm_num [tsZeroBase3, daysOf, ssq, meanL],
   by norm_num [tsZeroBase3, areasOf],
   C6_zero_baseline_reports_zero tsZeroBase3 (by norm_num [tsZeroBase3])
     (by norm_num [tsZeroBase3, daysOf, ssq, meanL])
     (by norm_num [tsZeroBase3, areasOf])⟩

/-! ### C7: trend fit on an exactly linear series -/

/-- C7 (amended): for every series of at least 3 points with strictly
increasing dates whose values lie exactly on a line with per-day increment
`m ≠ 0`, the fit (on days elapsed from the first observation) returns slope
exactly `m`, `r_squared` exactly 1, and the annualized rate
`slope * 365.25`.  For `m = 0` (a constant series) scipy's `linregress`
returns `r = 0`, so `r_squared` is 0, not 1 (see the counterexample). -/
theorem C7_linear_series_fit (ts : List (ℤ × ℚ)) (m c : ℚ) (h3 : 3 ≤ ts.length)
    (hchain : List.Chain' (· < ·) (ts.map Prod.fst))
    (hlin : areasOf ts = (daysOf ts).map (fun x => m * x + c)) (hm : m ≠ 0) :
    slopeOf (daysOf ts) (areasOf ts) = m ∧
    ∃ res, estimate_melt_rate ts = Except.ok res ∧
      res.r_squared = 1 ∧
      res.annual_rate_km2 = slopeOf (daysOf ts) (areasOf ts) * (1461 / 4) ∧
      res.annual_rate_km2 = m * (1461 / 4) := by
  -- the days list is nonempty and has two distinct entries
  obtain ⟨p, q, t, rfl⟩ : ∃ p q t, ts = p :: q :: t := by
    match ts, h3 with
    | p :: q :: t, _ => exact ⟨p, q, t, rfl⟩
  have hne : daysOf (p :: q :: t) ≠ [] := by simp [daysOf]
  have hpq : p.1 < q.1 := by
    simp only [List.map_cons, List.chain'_cons] at hchain
    exact hchain.1
  have h0mem : (0 : ℚ) ∈ daysOf (p :: q :: t) := by
    simp [daysOf]
  have h1mem : ((q.1 - p.1 : ℤ) : ℚ) ∈ daysOf (p :: q :: t) := by
    simp [daysOf]
  have hne01 : (0 : ℚ) ≠ ((q.1 - p.1 : ℤ) : ℚ) := by
    have : (0 : ℤ) < q.1 - p.1 := by omega
    intro hcon
    have : ((0 : ℤ) : ℚ) = ((q.1 - p.1 : ℤ) : ℚ) := by exact_mod_cast hcon
    have := (Int.cast_injective (α := ℚ)) this
    omega
  have hssqpos : 0 < ssq (daysOf (p :: q :: t)) := ssq_pos_of_ne h0mem h1mem hne01
  have hssq : ssq (daysOf (p :: q :: t)) ≠ 0 := ne_of_gt hssqpos
  have hslope : slopeOf (daysOf (p :: q :: t)) (areasOf (p :: q :: t)) = m := by
    rw [slopeOf, hlin, ssxy_linear _ hne]
    field_simp
  have hrsq : rsqOf (daysOf (p :: q :: t)) (areasOf (p :: q :: t)) = 1 := by
    rw [rsqOf, hlin, ssq_linear _ hne, ssxy_linear _ hne]
    have hy : m ^ 2 * ssq (daysOf (p :: q :: t)) ≠ 0 :=
      mul_ne_zero (pow_ne_zero 2 hm) hssq
    rw [if_neg hy]
    field_simp
    ring
  have hg1 : ¬((p :: q :: t).length < 2) := by simp
  refine ⟨hslope, ?_⟩
  simp only [estimate_melt_rate]
  rw [if_neg hg1, if_neg hssq]
  exact ⟨_, rfl, hrsq, rfl, by rw [hslope]⟩

/-- C7 counterexample: the constant series `tsConst` lies exactly on a line
(per-day increment 0), has 3 date-ordered points, yet the fit reports
`r_squared = 0`, not 1: the claim fails as stated for slope-zero series. -/
theorem C7_counterexample :
    3 ≤ tsConst.length ∧ List.Chain' (· < ·) (tsConst.map Prod.fst) ∧
    areasOf tsConst = (daysOf tsConst).map (fun x => 0 * x + 5) ∧
    (estimate_melt_rate tsConst).toOption.map MeltRateResult.r_squared = some 0 ∧
    ((0 : ℚ) ≠ 1) := by
  refine ⟨by norm_num [tsConst], by norm_num [tsConst], ?_, ?_, by norm_num⟩
  · norm_num [tsConst, areasOf, daysOf]
  · norm_num [estimate_melt_rate, tsConst, daysOf, areasOf, ssq, ssxy, meanL,
      slopeOf, rsqOf, Except.toOption]

/-- C7 witness: the amended theorem applied to the concrete linear series
`tsLinear` (increment 2 per day). -/
theorem C7_witness :
    3 ≤ tsLinear.length ∧ List.Chain' (· < ·) (tsLinear.map Prod.fst) ∧
    areasOf tsLinear = (daysOf tsLinear).map (fun x => 2 * x + 1) ∧ ((2 : ℚ) ≠ 0) ∧
    (slopeOf (daysOf tsLinear) (areasOf tsLinear) = 2 ∧
     ∃ res, estimate_melt_rate tsLinear = Except.ok res ∧
       res.r_squared = 1 ∧
       res.annual_rate_km2 = slopeOf (daysOf tsLinear) (areasOf tsLinear) * (1461 / 4) ∧
       res.annual_rate_km2 = 2 * (1461 / 4)) :=
  ⟨by norm_num [tsLinear], by norm_num [tsLinear],
   by norm_num [tsLinear, areasOf, daysOf], by norm_num,
   C7_linear_series_fit tsLinear 2 1 (by norm_num [tsLinear])
     (by norm_num [tsLinear]) (by norm_num [tsLinear, areasOf, daysOf]) (by norm_num)⟩

/-! ### C9: compare_images does not crop -/

theorem countGridB_eq_zero (H W : ℕ) (m : ℕ → ℕ → Bool) (h : ∀ r c, m r c = false) :
    countGridB H W m = 0 := by
  simp only [countGridB]
  apply List.sum_eq_zero
  intro x hx
  obtain ⟨r, _, rfl⟩ := List.mem_map.mp hx
  simp [h]

/-- C9 (amended): `compare_images` performs no cropping to the overlapping
min-height × min-width region: it is defined exactly when the two shapes are
numpy-broadcast-compatible in both dimensions (in particular when they are
equal, in which case the difference map has the common input shape); for any
other shape pair the elementwise subtraction raises (modelled as `none`),
rather than producing an overlap-shaped result. -/
theorem C9_no_cropping (A B : QImage) (thr : ℚ) :
    ((compare_images A B thr).isSome ↔
      ((bcastDim A.H B.H).isSome ∧ (bcastDim A.W B.W).isSome)) ∧
    (A.H = B.H → A.W = B.W →
      ∃ res, compare_images A B thr = some res ∧
        res.diff.H = A.H ∧ res.diff.W = A.W) := by
  constructor
  · cases h1 : bcastDim A.H B.H <;> cases h2 : bcastDim A.W B.W <;>
      simp [compare_images, broadcastOp, h1, h2]
  · intro hH hW
    have e1 : bcastDim A.H B.H = some A.H := by simp [bcastDim, hH]
    have e2 : bcastDim A.W B.W = some A.W := by simp [bcastDim, hW]
    simp only [compare_images, broadcastOp, e1, e2]
    exact ⟨_, rfl, rfl, rfl⟩

/-- C9 counterexample: the 1×2 raster `qimgA` and the 1×3 raster `qimgB`
have different pixel shapes; the claim says `compare` first crops both to
the 1×2 overlap and succeeds, but `compare_images` raises (returns `none`):
no cropping happens. -/
theorem C9_counterexample :
    qimgA.H = 1 ∧ qimgB.H = 1 ∧ qimgA.W = 2 ∧ qimgB.W = 3 ∧
    compare_images qimgA qimgB 3 = none :=
  ⟨rfl, rfl, rfl, rfl, rfl⟩

/-- C9 witness: the amended theorem applied to the concrete rasters
`qimgA` and `qimgB`. -/
theorem C9_witness :
    ((compare_images qimgA qimgB 3).isSome ↔
      ((bcastDim qimgA.H qimgB.H).isSome ∧ (bcastDim qimgA.W qimgB.W).isSome)) ∧
    (qimgA.H = qimgB.H → qimgA.W = qimgB.W →
      ∃ res, compare_images qimgA qimgB 3 = some res ∧
        res.diff.H = qimgA.H ∧ res.diff.W = qimgA.W) :=
  C9_no_cropping qimgA qimgB 3

/-! ### C5: comparing a scene with itself -/

/-- C5 (amended): `compare_images(A, A)` succeeds, its difference map is zero
at every pixel, and for every positive significance threshold 0% of pixels
are flagged as significant decrease and 0% as significant increase.  The
ratio map, however, is not identically zero: at each pixel it equals
`10·log10(L/(L+1e-10) + 1e-10)` with `L` the linear backscatter, which is
zero exactly when `L = 1 - 1e-10` (see the counterexample for a pixel where
it is nonzero). -/
theorem C5_compare_self (A : QImage) (thr : ℚ) (hthr : 0 < thr) :
    (∃ res, compare_images A A thr = some res ∧
      (∀ r c : ℕ, res.diff.val r c = 0) ∧
      res.percent_decreased = 0 ∧ res.percent_increased = 0) ∧
    (∀ r c : ℕ, ratio_db (A.val r c) (A.val r c) = 0 ↔
      linearPow (A.val r c) = 1 - epsR) := by
  constructor
  · have e1 : bcastDim A.H A.H = some A.H := by simp [bcastDim]
    have e2 : bcastDim A.W A.W = some A.W := by simp [bcastDim]
    simp only [compare_images, broadcastOp, e1, e2]
    refine ⟨_, rfl, ?_, ?_, ?_⟩
    · intro r c; simp
    · have hz : countGridB A.H A.W (fun r c =>
          decide ((A.val (bidx A.H r) (bidx A.W c) - A.val (bidx A.H r) (bidx A.W c) : ℚ)
            < -thr)) = 0 := by
        apply countGridB_eq_zero
        intro r c
        simp only [sub_self, decide_eq_false_iff_not]
        linarith
      simp only [hz]
      simp
    · have hz : countGridB A.H A.W (fun r c =>
          decide (thr < (A.val (bidx A.H r) (bidx A.W c) - A.val (bidx A.H r) (bidx A.W c) : ℚ)))
            = 0 := by
        apply countGridB_eq_zero
        intro r c
        simp only [sub_self, decide_eq_false_iff_not]
        linarith
      simp only [hz]
      simp
  · intro r c
    have hE : (0 : ℝ) < epsR := by norm_num [epsR]
    have hL : 0 < linearPow (A.val r c) := Real.rpow_pos_of_pos (by norm_num) _
    have hden : (0 : ℝ) < linearPow (A.val r c) + epsR := by linarith
    have hdne : linearPow (A.val r c) + epsR ≠ 0 := ne_of_gt hden
    have harg : (0 : ℝ) <
        linearPow (A.val r c) / (linearPow (A.val r c) + epsR) + epsR := by positivity
    have hlog10 : Real.log 10 ≠ 0 := ne_of_gt (Real.log_pos (by norm_num))
    unfold ratio_db
    constructor
    · intro h
      have h1 : Real.log (linearPow (A.val r c) / (linearPow (A.val r c) + epsR) + epsR)
          = 0 := by
        rcases mul_eq_zero.mp h with h' | h'
        · norm_num at h'
        · rcases div_eq_zero_iff.mp h' with h'' | h''
          · exact h''
          · exact absurd h'' hlog10
      have h2 : linearPow (A.val r c) / (linearPow (A.val r c) + epsR) + epsR = 1 := by
        rcases Real.log_eq_zero.mp h1 with h | h | h
        · exfalso; rw [h] at harg; exact lt_irrefl 0 harg
        · exact h
        · exfalso; rw [h] at harg; linarith
      field_simp at h2
      simp only [epsR] at h2 ⊢
      nlinarith [h2]
    · intro h
      rw [h]
      have hsum : (1 : ℝ) - epsR + epsR = 1 := by ring
      rw [hsum, div_one]
      have : (1 : ℝ) - epsR + epsR = 1 := by ring
      rw [this, Real.log_one]
      simp

/-- C5 counterexample: at a pixel with backscatter −80 dB (linear power
10⁻⁸) the self-comparison ratio map is strictly negative, hence not zero:
the regularizing 1e-10 terms make `ratio_db(a, a)` differ from 0. -/
theorem C5_counterexample : ratio_db (-80) (-80) < 0 ∧ ratio_db (-80) (-80) ≠ 0 := by
  have hLval : linearPow (-80) = ((10 : ℝ) ^ (8 : ℕ))⁻¹ := by
    unfold linearPow
    have he : (((-80 : ℚ) : ℝ)) / 10 = -((8 : ℕ) : ℝ) := by norm_num
    rw [he, Real.rpow_neg (by norm_num : (0 : ℝ) ≤ 10), Real.rpow_natCast]
  have hE : (0 : ℝ) < epsR := by norm_num [epsR]
  have hL : (0 : ℝ) < linearPow (-80) := Real.rpow_pos_of_pos (by norm_num) _
  have harg : (0 : ℝ) < linearPow (-80) / (linearPow (-80) + epsR) + epsR := by positivity
  have harg1 : linearPow (-80) / (linearPow (-80) + epsR) + epsR < 1 := by
    rw [hLval]
    norm_num [epsR]
  have hlogneg : Real.log (linearPow (-80) / (linearPow (-80) + epsR) + epsR) < 0 :=
    Real.log_neg harg harg1
  have hlog10 : (0 : ℝ) < Real.log 10 := Real.log_pos (by norm_num)
  have hneg : ratio_db (-80) (-80) < 0 := by
    unfold ratio_db
    have hq : Real.log (linearPow (-80) / (linearPow (-80) + epsR) + epsR) / Real.log 10
        < 0 := div_neg_of_neg_of_pos hlogneg hlog10
    linarith
  exact ⟨hneg, ne_of_lt hneg⟩

/-- C5 witness: the amended theorem applied to the concrete raster
`qimgDark` with threshold 3 dB. -/
theorem C5_witness :
    (0 : ℚ) < 3 ∧
    ((∃ res, compare_images qimgDark qimgDark 3 = some res ∧
      (∀ r c : ℕ, res.diff.val r c = 0) ∧
      res.percent_decreased = 0 ∧ res.percent_increased = 0) ∧
    (∀ r c : ℕ, ratio_db (qimgDark.val r c) (qimgDark.val r c) = 0 ↔
      linearPow (qimgDark.val r c) = 1 - epsR)) :=
  ⟨by norm_num, C5_compare_self qimgDark 3 (by norm_num)⟩

/-! ### Window and median lemmas (used by C10 and C8) -/

theorem reflectIdx_lt (n : ℕ) (hn : 1 ≤ n) (i : ℤ) : reflectIdx n i < n := by
  have h2n : (0 : ℤ) < 2 * (n : ℤ) := by positivity
  have hm1 : 0 ≤ i % (2 * (n : ℤ)) := Int.emod_nonneg i (ne_of_gt h2n)
  have hm2 : i % (2 * (n : ℤ)) < 2 * (n : ℤ) := Int.emod_lt_of_pos i h2n
  simp only [reflectIdx]
  split
  · assumption
  · omega

theorem windowOffsets_length (w : ℕ) : (windowOffsets w).length = w := by
  unfold windowOffsets
  rw [List.length_map, List.length_range]

theorem sum_map_const_nat (l : List ℤ) (k : ℕ) : (l.map (fun _ => k)).sum = l.length * k := by
  induction l with
  | nil => simp
  | cons x t ih => simp [ih, Nat.succ_mul, Nat.add_comm]

theorem windowVals_length (img : EImage) (w : ℕ) (r c : ℕ) :
    (windowVals img w r c).length = w * w := by
  simp only [windowVals, List.length_flatten, List.map_map]
  have he : ((windowOffsets w).map (List.length ∘ fun dr =>
      (windowOffsets w).map (fun dc =>
        img.val (reflectIdx img.H ((r : ℤ) + dr)) (reflectIdx img.W ((c : ℤ) + dc))))) =
      (windowOffsets w).map (fun _ => w) := by
    apply List.map_congr_left
    intro a _
    simp [windowOffsets_length]
  rw [he, sum_map_const_nat, windowOffsets_length]

theorem windowVals_ne_nil (img : EImage) (w : ℕ) (hw : 1 ≤ w) (r c : ℕ) :
    windowVals img w r c ≠ [] := by
  intro h
  have := windowVals_length img w r c
  rw [h] at this
  simp at this
  omega

theorem windowVals_all_some (img : EImage) (w : ℕ) (hH : 1 ≤ img.H) (hW : 1 ≤ img.W)
    (hsome : ∀ r' c' : ℕ, r' < img.H → c' < img.W → (img.val r' c').isSome)
    (r c : ℕ) : ∀ x ∈ windowVals img w r c, x.isSome := by
  intro x hx
  simp only [windowVals, List.mem_flatten, List.mem_map] at hx
  obtain ⟨l, ⟨dr, _, rfl⟩, hx⟩ := hx
  obtain ⟨dc, _, rfl⟩ := List.mem_map.mp hx
  exact hsome _ _ (reflectIdx_lt img.H hH _) (reflectIdx_lt img.W hW _)

theorem medianOf_isSome {l : List EFloat} (hl : l ≠ []) (h : ∀ x ∈ l, x.isSome) :
    (medianOf l).isSome := by
  unfold medianOf
  have hperm := List.perm_insertionSort nanLe l
  have hlen : (List.insertionSort nanLe l).length = l.length := hperm.length_eq
  have hlt : l.length / 2 < (List.insertionSort nanLe l).length := by
    rw [hlen]
    have := List.length_pos.mpr hl
    omega
  rw [List.getD_eq_getElem _ _ hlt]
  exact h _ (hperm.subset (List.getElem_mem hlt))

theorem mem_finiteFilteredVals {img : EImage} {r c : ℕ} {v : ℚ} (hr : r < img.H)
    (hc : c < img.W) (h : filteredAt img r c = some v) :
    v ∈ finiteFilteredVals img := by
  simp only [finiteFilteredVals, List.mem_flatten, List.mem_map]
  refine ⟨_, ⟨r, List.mem_range.mpr hr, rfl⟩, ?_⟩
  simp only [List.mem_filterMap]
  exact ⟨c, List.mem_range.mpr hc, h⟩

theorem finiteFilteredVals_ne_nil (img : EImage) (hH : 1 ≤ img.H) (hW : 1 ≤ img.W)
    (hsome : ∀ r' c' : ℕ, r' < img.H → c' < img.W → (img.val r' c').isSome) :
    finiteFilteredVals img ≠ [] := by
  have hms : (filteredAt img 0 0).isSome :=
    medianOf_isSome (windowVals_ne_nil img 3 (by norm_num) 0 0)
      (windowVals_all_some img 3 hH hW hsome 0 0)
  obtain ⟨v, hv⟩ := Option.isSome_iff_exists.mp hms
  exact List.ne_nil_of_mem (mem_finiteFilteredVals hH hW hv)

/-! ### C10: the simple single-threshold detector -/

/-- C10: for every dB raster with at least one finite pixel after the 3×3
median filtering, `find_glacier_simple`'s mask holds at exactly the finite
filtered pixels whose value is at most the configured percentile threshold
(the 33.3rd percentile of the finite filtered values by default); the
returned pixel count is the number of `true` entries of the mask; and every
pixel attaining the minimum finite filtered value — in particular any
shadow/rock pixel among the darkest — is included in the mask. -/
theorem C10_find_glacier_simple_spec (img : EImage) (p : ℚ) (hp : 0 ≤ p)
    (hfin : finiteFilteredVals img ≠ []) :
    (∀ r c : ℕ, glacier_mask img p r c = true ↔
      (∃ v, filteredAt img r c = some v ∧ v ≤ glacierThreshold img p)) ∧
    glacier_pixels img p = countGridB img.H img.W (glacier_mask img p) ∧
    (∀ r c : ℕ, r < img.H → c < img.W → ∀ v, filteredAt img r c = some v →
      (∀ x ∈ finiteFilteredVals img, v ≤ x) → glacier_mask img p r c = true) := by
  refine ⟨?_, rfl, ?_⟩
  · intro r c
    cases hft : filteredAt img r c with
    | none => simp [glacier_mask, eleB, hft]
    | some v => simp [glacier_mask, eleB, hft]
  · intro r c hr hc v hft hmin
    have hle : v ≤ glacierThreshold img p :=
      percentile_ge_of_lower_bound (finiteFilteredVals img) hfin hp hmin
    simp [glacier_mask, eleB, hft, hle]

/-- C10 witness: the theorem applied to the concrete raster `eimgTwo` with
the default percentile 33.3. -/
theorem C10_witness :
    (0 : ℚ) ≤ GLACIER_PERCENTILE ∧ finiteFilteredVals eimgTwo ≠ [] ∧
    ((∀ r c : ℕ, glacier_mask eimgTwo GLACIER_PERCENTILE r c = true ↔
      (∃ v, filteredAt eimgTwo r c = some v ∧
        v ≤ glacierThreshold eimgTwo GLACIER_PERCENTILE)) ∧
    glacier_pixels eimgTwo GLACIER_PERCENTILE =
      countGridB eimgTwo.H eimgTwo.W (glacier_mask eimgTwo GLACIER_PERCENTILE) ∧
    (∀ r c : ℕ, r < eimgTwo.H → c < eimgTwo.W → ∀ v,
      filteredAt eimgTwo r c = some v →
      (∀ x ∈ finiteFilteredVals eimgTwo, v ≤ x) →
      glacier_mask eimgTwo GLACIER_PERCENTILE r c = true)) :=
  ⟨by norm_num [GLACIER_PERCENTILE],
   finiteFilteredVals_ne_nil eimgTwo (by norm_num [eimgTwo]) (by norm_num [eimgTwo])
     (by intro r' c' _ _; simp [eimgTwo, apply_ite Option.isSome]),
   C10_find_glacier_simple_spec eimgTwo GLACIER_PERCENTILE
     (by norm_num [GLACIER_PERCENTILE])
     (finiteFilteredVals_ne_nil eimgTwo (by norm_num [eimgTwo]) (by norm_num [eimgTwo])
       (by intro r' c' _ _; simp [eimgTwo, apply_ite Option.isSome]))⟩

/-! ### EFloat lemmas and the Lee filter (C8) -/

theorem eadd_none_left (y : EFloat) : eadd none y = none := by cases y <;> rfl

theorem eadd_none_right (x : EFloat) : eadd x none = none := by cases x <;> rfl

theorem esub_none_left (y : EFloat) : esub none y = none := by cases y <;> rfl

theorem emul_none_left (y : EFloat) : emul none y = none := by cases y <;> rfl

theorem ediv_none_left (y : EFloat) : ediv none y = none := by cases y <;> rfl

theorem ediv_none_right (x : EFloat) : ediv x none = none := by cases x <;> rfl

theorem esum_none_of_mem {l : List EFloat} (h : (none : EFloat) ∈ l) : esum l = none := by
  induction l with
  | nil => cases h
  | cons x t ih =>
      rcases List.mem_cons.mp h with rfl | h
      · show eadd none (esum t) = none
        exact eadd_none_left _
      · show eadd x (esum t) = none
        rw [ih h]
        exact eadd_none_right x

theorem esum_all_some {l : List EFloat} (h : ∀ x ∈ l, x.isSome) :
    esum l = some ((l.map (fun x => x.getD 0)).sum) := by
  induction l with
  | nil => rfl
  | cons x t ih =>
      obtain ⟨a, rfl⟩ := Option.isSome_iff_exists.mp (h x (List.mem_cons_self x t))
      have ht := ih (fun y hy => h y (List.mem_cons_of_mem _ hy))
      show eadd (some a) (esum t) = _
      rw [ht]
      simp [eadd]

theorem mem_allVals (img : EImage) {r c : ℕ} (hr : r < img.H) (hc : c < img.W) :
    img.val r c ∈ allVals img := by
  simp only [allVals, List.mem_flatten, List.mem_map]
  exact ⟨_, ⟨r, List.mem_range.mpr hr, rfl⟩, List.mem_map.mpr ⟨c, List.mem_range.mpr hc, rfl⟩⟩

theorem uniform_filter_some (img : EImage) (w : ℕ) (hw : 1 ≤ w) (hH : 1 ≤ img.H)
    (hW : 1 ≤ img.W)
    (hsome : ∀ r' c' : ℕ, r' < img.H → c' < img.W → (img.val r' c').isSome) (r c : ℕ) :
    (uniform_filter img w).val r c =
      some ((((windowVals img w r c).map (fun x => x.getD 0)).sum) / ((w : ℚ) * (w : ℚ))) := by
  show ediv (esum (windowVals img w r c)) (some ((w : ℚ) * (w : ℚ))) = _
  rw [esum_all_some (windowVals_all_some img w hH hW hsome r c)]
  have hwq : ((w : ℚ) * (w : ℚ)) ≠ 0 := by
    have h1 : (1 : ℚ) ≤ (w : ℚ) := by exact_mod_cast hw
    positivity
  simp [ediv, hwq]

theorem imgSq_some (img : EImage)
    (hsome : ∀ r' c' : ℕ, r' < img.H → c' < img.W → (img.val r' c').isSome) :
    ∀ r' c' : ℕ, r' < (imgSq img).H → c' < (imgSq img).W → ((imgSq img).val r' c').isSome := by
  intro r' c' h1 h2
  obtain ⟨a, ha⟩ := Option.isSome_iff_exists.mp (hsome r' c' h1 h2)
  show (emul (img.val r' c') (img.val r' c')).isSome
  rw [ha]
  rfl

theorem windowVals_imgSq (img : EImage) (w r c : ℕ) :
    windowVals (imgSq img) w r c = (windowVals img w r c).map (fun x => emul x x) := by
  simp only [windowVals, imgSq, List.map_flatten, List.map_map]
  congr 1
  apply List.map_congr_left
  intro dr _
  simp [List.map_map, Function.comp]

theorem list_sq_sum_le (l : List ℚ) :
    (l.sum) * (l.sum) ≤ (l.length : ℚ) * ((l.map (fun x => x * x)).sum) := by
  induction l with
  | nil => simp
  | cons x t ih =>
      have hQ : 0 ≤ (t.map (fun x => x * x)).sum := by
        apply List.sum_nonneg
        intro y hy
        obtain ⟨z, _, rfl⟩ := List.mem_map.mp hy
        exact mul_self_nonneg z
      have hn : (0 : ℚ) ≤ (t.length : ℚ) := by positivity
      rcases t with _ | ⟨y, t2⟩
      · simp
      · have hn1 : (1 : ℚ) ≤ ((y :: t2).length : ℚ) := by
          have : 1 ≤ (y :: t2).length := by simp
          exact_mod_cast this
        simp only [List.map_cons, List.sum_cons, List.length_cons] at ih hQ ⊢
        push_cast at ih hn1 ⊢
        nlinarith [ih, hQ, mul_self_nonneg (((t2.length : ℚ) + 1) * x - (y + t2.sum)),
          mul_self_nonneg x, mul_self_nonneg (y + t2.sum)]

theorem np_mean_some (img : EImage) (hH : 1 ≤ img.H) (hW : 1 ≤ img.W)
    (hsome : ∀ r' c' : ℕ, r' < img.H → c' < img.W → (img.val r' c').isSome) :
    np_mean img =
      some (((allVals img).map (fun x => x.getD 0)).sum / ((img.H : ℚ) * (img.W : ℚ))) := by
  have hall : ∀ x ∈ allVals img, x.isSome := by
    intro x hx
    simp only [allVals, List.mem_flatten, List.mem_map] at hx
    obtain ⟨l, ⟨r, hr, rfl⟩, hx⟩ := hx
    obtain ⟨c, hc, rfl⟩ := List.mem_map.mp hx
    exact hsome r c (List.mem_range.mp hr) (List.mem_range.mp hc)
  show ediv (esum (allVals img)) (some ((img.H : ℚ) * (img.W : ℚ))) = _
  rw [esum_all_some hall]
  have hq : ((img.H : ℚ) * (img.W : ℚ)) ≠ 0 := by
    have h1 : (1 : ℚ) ≤ (img.H : ℚ) := by exact_mod_cast hH
    have h2 : (1 : ℚ) ≤ (img.W : ℚ) := by exact_mod_cast hW
    positivity
  simp [ediv, hq]

theorem np_var_some_nonneg (img : EImage) (hH : 1 ≤ img.H) (hW : 1 ≤ img.W)
    (hsome : ∀ r' c' : ℕ, r' < img.H → c' < img.W → (img.val r' c').isSome) :
    ∃ ov, np_var img = some ov ∧ 0 ≤ ov := by
  have hmean := np_mean_some img hH hW hsome
  have hall : ∀ x ∈ allVals img, x.isSome := by
    intro x hx
    simp only [allVals, List.mem_flatten, List.mem_map] at hx
    obtain ⟨l, ⟨r, hr, rfl⟩, hx⟩ := hx
    obtain ⟨c, hc, rfl⟩ := List.mem_map.mp hx
    exact hsome r c (List.mem_range.mp hr) (List.mem_range.mp hc)
  have hterms : ∀ y ∈ (allVals img).map
      (fun x => emul (esub x (np_mean img)) (esub x (np_mean img))), y.isSome := by
    intro y hy
    obtain ⟨x, hx, rfl⟩ := List.mem_map.mp hy
    obtain ⟨a, rfl⟩ := Option.isSome_iff_exists.mp (hall x hx)
    rw [hmean]
    rfl
  have hq : ((img.H : ℚ) * (img.W : ℚ)) ≠ 0 := by
    have h1 : (1 : ℚ) ≤ (img.H : ℚ) := by exact_mod_cast hH
    have h2 : (1 : ℚ) ≤ (img.W : ℚ) := by exact_mod_cast hW
    positivity
  have hpos : (0 : ℚ) < (img.H : ℚ) * (img.W : ℚ) := by
    rcases lt_or_eq_of_le (by positivity : (0:ℚ) ≤ (img.H : ℚ) * (img.W : ℚ)) with h | h
    · exact h
    · exact absurd h.symm hq
  refine ⟨(((allVals img).map
      (fun x => emul (esub x (np_mean img)) (esub x (np_mean img)))).map
        (fun x => x.getD 0)).sum / ((img.H : ℚ) * (img.W : ℚ)), ?_, ?_⟩
  · show ediv (esum ((allVals img).map
      (fun x => emul (esub x (np_mean img)) (esub x (np_mean img)))))
      (some ((img.H : ℚ) * (img.W : ℚ))) = _
    rw [esum_all_some hterms]
    simp [ediv, hq]
  · apply div_nonneg _ (le_of_lt hpos)
    apply List.sum_nonneg
    intro y hy
    simp only [List.map_map] at hy
    obtain ⟨x, hx, rfl⟩ := List.mem_map.mp hy
    obtain ⟨a, rfl⟩ := Option.isSome_iff_exists.mp (hall x hx)
    simp only [Function.comp_apply, hmean, esub, emul, Option.getD_some]
    exact mul_self_nonneg _

theorem lee_filter_isSome (img : EImage) (w : ℕ) (hw : 1 ≤ w) (hH : 1 ≤ img.H)
    (hW : 1 ≤ img.W)
    (hsome : ∀ r' c' : ℕ, r' < img.H → c' < img.W → (img.val r' c').isSome)
    (r c : ℕ) (hr : r < img.H) (hc : c < img.W) :
    ((lee_filter img w).val r c).isSome = true := by
  obtain ⟨ov, hov, hov0⟩ := np_var_some_nonneg img hH hW hsome
  have hm := uniform_filter_some img w hw hH hW hsome r c
  have hsm := uniform_filter_some (imgSq img) w hw hH hW (imgSq_some img hsome) r c
  set lq := (windowVals img w r c).map (fun x => x.getD 0) with hlq
  set S := lq.sum with hS
  set Qs := (lq.map (fun a => a * a)).sum with hQs
  have hQeq : ((windowVals (imgSq img) w r c).map (fun x => x.getD 0)).sum = Qs := by
    rw [windowVals_imgSq, hQs, hlq, List.map_map, List.map_map]
    congr 1
    apply List.map_congr_left
    intro x hx
    obtain ⟨a, rfl⟩ := Option.isSome_iff_exists.mp
      (windowVals_all_some img w hH hW hsome r c x hx)
    rfl
  rw [hQeq] at hsm
  have hwq : (0 : ℚ) < (w : ℚ) * (w : ℚ) := by
    have h1 : (1 : ℚ) ≤ (w : ℚ) := by exact_mod_cast hw
    nlinarith
  -- Cauchy–Schwarz: the local variance is nonnegative
  have hlen : (lq.length : ℚ) = (w : ℚ) * (w : ℚ) := by
    rw [hlq, List.length_map, windowVals_length]
    push_cast
    ring
  have hcs : S * S ≤ ((w : ℚ) * (w : ℚ)) * Qs := by
    have := list_sq_sum_le lq
    rw [hlen] at this
    exact this
  have hvar0 : 0 ≤ Qs / ((w : ℚ) * (w : ℚ)) -
      (S / ((w : ℚ) * (w : ℚ))) * (S / ((w : ℚ) * (w : ℚ))) := by
    have he : Qs / ((w : ℚ) * (w : ℚ)) -
        (S / ((w : ℚ) * (w : ℚ))) * (S / ((w : ℚ) * (w : ℚ))) =
        (((w : ℚ) * (w : ℚ)) * Qs - S * S) / (((w : ℚ) * (w : ℚ)) * ((w : ℚ) * (w : ℚ))) := by
      field_simp
      ring
    rw [he]
    apply div_nonneg (by linarith) (by positivity)
  have hD : Qs / ((w : ℚ) * (w : ℚ)) -
      (S / ((w : ℚ) * (w : ℚ))) * (S / ((w : ℚ) * (w : ℚ))) + ov + epsQ ≠ 0 := by
    have hε : (0 : ℚ) < epsQ := by norm_num [epsQ]
    have : (0 : ℚ) < Qs / ((w : ℚ) * (w : ℚ)) -
        (S / ((w : ℚ) * (w : ℚ))) * (S / ((w : ℚ) * (w : ℚ))) + ov + epsQ := by linarith
    exact ne_of_gt this
  obtain ⟨a, ha⟩ := Option.isSome_iff_exists.mp (hsome r c hr hc)
  show (eadd ((uniform_filter img w).val r c)
      (emul (ediv (esub ((uniform_filter (imgSq img) w).val r c)
          (emul ((uniform_filter img w).val r c) ((uniform_filter img w).val r c)))
        (eadd (eadd (esub ((uniform_filter (imgSq img) w).val r c)
          (emul ((uniform_filter img w).val r c) ((uniform_filter img w).val r c)))
          (np_var img)) (some epsQ)))
        (esub (img.val r c) ((uniform_filter img w).val r c)))).isSome = true
  rw [hm, hsm, hov, ha]
  simp only [emul, esub, eadd, ediv]
  rw [if_neg hD]
  rfl

theorem lee_filter_none_of_nan (img : EImage) (w : ℕ) {r' c' : ℕ} (h1 : r' < img.H)
    (h2 : c' < img.W) (hnan : img.val r' c' = none) (r c : ℕ) :
    (lee_filter img w).val r c = none := by
  have hmem : (none : EFloat) ∈ allVals img := by
    have h := mem_allVals img h1 h2
    rwa [hnan] at h
  have hsum : esum (allVals img) = none := esum_none_of_mem hmem
  have hmean : np_mean img = none := by
    show ediv (esum (allVals img)) _ = none
    rw [hsum]
    exact ediv_none_left _
  have hvar : np_var img = none := by
    show ediv (esum ((allVals img).map
      (fun x => emul (esub x (np_mean img)) (esub x (np_mean img))))) _ = none
    have hm2 : (none : EFloat) ∈ (allVals img).map
        (fun x => emul (esub x (np_mean img)) (esub x (np_mean img))) := by
      have hmm := List.mem_map_of_mem
        (fun x => emul (esub x (np_mean img)) (esub x (np_mean img))) hmem
      simp only [esub_none_left, emul_none_left] at hmm
      exact hmm
    rw [esum_none_of_mem hm2]
    exact ediv_none_left _
  show eadd ((uniform_filter img w).val r c)
      (emul (ediv (esub ((uniform_filter (imgSq img) w).val r c)
          (emul ((uniform_filter img w).val r c) ((uniform_filter img w).val r c)))
        (eadd (eadd (esub ((uniform_filter (imgSq img) w).val r c)
          (emul ((uniform_filter img w).val r c) ((uniform_filter img w).val r c)))
          (np_var img)) (some epsQ)))
        (esub (img.val r c) ((uniform_filter img w).val r c))) = none
  rw [hvar, eadd_none_right, eadd_none_left, ediv_none_right, emul_none_left,
    eadd_none_right]

/-! ### C8: the Lee filter and NaN positions -/

/-- C8 (amended): the Lee filter preserves the image shape, and for every
nonempty image and window: if the input contains no NaN, the output contains
no NaN; but if the input contains at least one NaN, then every output pixel
is NaN — because `np.var(image)` is NaN as soon as one pixel is, making the
filter weights NaN everywhere.  Equivalently, an output pixel is NaN exactly
when some input pixel is NaN; NaN positions are preserved only for NaN-free
input, refuting the claimed exact preservation in general. -/
theorem C8_lee_filter_nan (img : EImage) (w : ℕ) (hw : 1 ≤ w) (hH : 1 ≤ img.H)
    (hW : 1 ≤ img.W) :
    (lee_filter img w).H = img.H ∧ (lee_filter img w).W = img.W ∧
    ∀ r c : ℕ, r < img.H → c < img.W →
      ((lee_filter img w).val r c = none ↔
        ∃ r' c', r' < img.H ∧ c' < img.W ∧ img.val r' c' = none) := by
  refine ⟨rfl, rfl, ?_⟩
  intro r c hr hc
  constructor
  · intro hout
    by_contra hno
    push_neg at hno
    have hsome : ∀ r' c' : ℕ, r' < img.H → c' < img.W → (img.val r' c').isSome := by
      intro r' c' h1 h2
      cases hval : img.val r' c' with
      | none => exact absurd hval (hno r' c' h1 h2)
      | some a => rfl
    have hs := lee_filter_isSome img w hw hH hW hsome r c hr hc
    rw [hout] at hs
    simp at hs
  · rintro ⟨r', c', h1, h2, hnan⟩
    exact lee_filter_none_of_nan img w h1 h2 hnan r c

/-- C8 counterexample: `eimgNaN` has a NaN at pixel (0,0) and a finite value
at pixel (0,1); after the Lee filter the pixel (0,1) has become NaN, so the
set of NaN positions of the output is not the set of NaN positions of the
input: a finite input pixel did not remain finite. -/
theorem C8_counterexample :
    eimgNaN.val 0 0 = none ∧ eimgNaN.val 0 1 = some 1 ∧
    (lee_filter eimgNaN 3).val 0 1 = none := by
  refine ⟨rfl, rfl, rfl⟩

/-- C8 witness: the amended theorem applied to the concrete NaN-free image
`eimgFin` with window size 3. -/
theorem C8_witness :
    1 ≤ 3 ∧ 1 ≤ eimgFin.H ∧ 1 ≤ eimgFin.W ∧
    ((lee_filter eimgFin 3).H = eimgFin.H ∧ (lee_filter eimgFin 3).W = eimgFin.W ∧
    ∀ r c : ℕ, r < eimgFin.H → c < eimgFin.W →
      ((lee_filter eimgFin 3).val r c = none ↔
        ∃ r' c', r' < eimgFin.H ∧ c' < eimgFin.W ∧ eimgFin.val r' c' = none)) :=
  ⟨by norm_num, by norm_num [eimgFin], by norm_num [eimgFin],
   C8_lee_filter_nan eimgFin 3 (by norm_num) (by norm_num [eimgFin])
     (by norm_num [eimgFin])⟩

end GlacierSAR
